import Mathlib

/-!
Shallow embedding of the NailScan post-processing engine
(`scripts/add_ipr_go.py`): row model, identifier normalizers, filter
primitives, the per-database pipelines and the annotation joiner, together
with theorems settling the specification claims.

Conventions of the embedding:
* a table cell is an `Option String` (`none` models both an absent key and
  a `None` value produced by the tab-separated reader for short rows);
* Python `int(...)` / `float(...)` are modelled by `parseInt` / `parseFloat`
  returning `none` where the Python call raises `ValueError`; rational
  numbers stand in for Python floats;
* a Python function that can raise an uncaught exception is modelled with
  an `Option` result, `none` meaning the run aborts;
* string operations are implemented over character lists so that all
  definitions reduce inside the kernel.
-/

/-- Numeric value of a list of decimal digit characters. -/
def digitsToNat (cs : List Char) : Nat :=
  cs.foldl (fun a c => a * 10 + (c.toNat - 48)) 0

/-- Digit-string check: nonempty and all decimal digits (Python `isdigit`). -/
def allDigits (cs : List Char) : Bool :=
  cs ≠ [] && cs.all (·.isDigit)

/-- Model of Python `int(s)`: optional sign followed by digits. -/
def parseInt (s : String) : Option Int :=
  match s.toList with
  | '-' :: cs => if allDigits cs then some (-(digitsToNat cs : Int)) else none
  | '+' :: cs => if allDigits cs then some (digitsToNat cs : Int) else none
  | cs => if allDigits cs then some (digitsToNat cs : Int) else none

/-- Mantissa part of a decimal literal: `digits`, `digits.digits`,
`digits.` or `.digits`. -/
def parseMantissa (cs : List Char) : Option ℚ :=
  match cs.span (· != '.') with
  | (ip, []) => if allDigits ip then some (digitsToNat ip : ℚ) else none
  | (ip, _ :: fp) =>
    if fp.all (· != '.') && ip.all (·.isDigit) && fp.all (·.isDigit)
        && (ip ≠ [] || fp ≠ []) then
      some ((digitsToNat ip : ℚ) + (digitsToNat fp : ℚ) / ((10 : ℚ) ^ fp.length))
    else none

/-- Exponent part of a decimal literal: optional sign followed by digits. -/
def parseExponent (cs : List Char) : Option Int :=
  match cs with
  | '-' :: ds => if allDigits ds then some (-(digitsToNat ds : Int)) else none
  | '+' :: ds => if allDigits ds then some (digitsToNat ds : Int) else none
  | ds => if allDigits ds then some (digitsToNat ds : Int) else none

/-- Unsigned decimal literal with optional exponent. -/
def parseUnsigned (cs : List Char) : Option ℚ :=
  match cs.span (fun c => c != 'e' && c != 'E') with
  | (m, []) => parseMantissa m
  | (m, _ :: ex) =>
    match parseMantissa m, parseExponent ex with
    | some q, some k => some (q * (10 : ℚ) ^ k)
    | _, _ => none

/-- Model of Python `float(s)` on decimal literals: returns `none` where
`float` raises `ValueError`. -/
def parseFloat (s : String) : Option ℚ :=
  match s.toList with
  | '-' :: cs => (parseUnsigned cs).map Neg.neg
  | '+' :: cs => parseUnsigned cs
  | cs => parseUnsigned cs

/-! ## Character-list string helpers (kernel-reducible) -/

/-- Split a character list at every occurrence of `sep`
(Python `s.split(sep)` for a one-character separator). -/
def splitChar (sep : Char) : List Char → List (List Char)
  | [] => [[]]
  | c :: cs =>
    match splitChar sep cs with
    | [] => [[]]
    | p :: ps => if c = sep then [] :: p :: ps else (c :: p) :: ps

/-- Python `s.split(sep)[0]` for a one-character separator. -/
def headPart (sep : Char) (s : String) : String :=
  String.mk ((splitChar sep s.toList).headD [])

/-- Python `s.startswith(pre)` over character lists. -/
def strStarts (s pre : String) : Bool :=
  pre.toList.isPrefixOf s.toList

/-- Python `s.strip()`: remove leading and trailing whitespace. -/
def pyStrip (s : String) : String :=
  String.mk (((s.toList.dropWhile (·.isWhitespace)).reverse.dropWhile
    (·.isWhitespace)).reverse)

/-- ASCII lower-casing of one character. -/
def asciiLower (c : Char) : Char :=
  if 'A' ≤ c ∧ c ≤ 'Z' then Char.ofNat (c.toNat + 32) else c

/-- ASCII upper-casing of one character. -/
def asciiUpper (c : Char) : Char :=
  if 'a' ≤ c ∧ c ≤ 'z' then Char.ofNat (c.toNat - 32) else c

/-- Python `s.lower()` (ASCII). -/
def pyLower (s : String) : String := String.mk (s.toList.map asciiLower)

/-- Python `s.upper()` (ASCII). -/
def pyUpper (s : String) : String := String.mk (s.toList.map asciiUpper)

/-- Python `c in s` for a one-character needle. -/
def strHasChar (s : String) (c : Char) : Bool := s.toList.contains c

/-- Join a list of strings with a separator (Python `sep.join(l)`). -/
def joinWith (sep : String) (l : List String) : String :=
  String.mk (List.intercalate sep.toList (l.map String.toList))

/-! ## The row record -/

/-- One hit row of the tab-separated table.  Each field holds the raw cell
text; `none` models an absent column or a `None` cell. -/
structure Row where
  target : Option String := none
  NAME : Option String := none
  ACC : Option String := none
  DESC : Option String := none
  target_start : Option String := none
  target_end : Option String := none
  query_start : Option String := none
  query_end : Option String := none
  score : Option String := none
  bias : Option String := none
  evalue : Option String := none
  cell_frac : Option String := none
  InterPro : Option String := none
  IPR_desc : Option String := none
  GO : Option String := none
deriving DecidableEq, Repr, Inhabited

/-- Python `(v or "")` for an optional cell: the cell text, empty when missing. -/
def sval (v : Option String) : String :=
  match v with
  | none => ""
  | some s => s

/-- Python `a or b` on two optional string cells, both defaulted at `""`:
the first truthy (nonempty) text, else `""`. -/
def firstTruthy (a b : Option String) : String :=
  if sval a ≠ "" then sval a else sval b

/-- The `row.get("target", "")` accessor. -/
def tgt (r : Row) : String := sval r.target

/-- The `row.get("ACC", "")` accessor. -/
def accD (r : Row) : String := sval r.ACC

/-- The `row.get("NAME", "")` accessor. -/
def nameD (r : Row) : String := sval r.NAME

/-- Python `int(v or 0)`: `none` when the call raises. -/
def pyIntField (v : Option String) : Option Int :=
  match v with
  | none => some 0
  | some s => if s = "" then some 0 else parseInt s

/-- Python `float(v or 0)`: `none` when the call raises. -/
def pyFloatRaise (v : Option String) : Option ℚ :=
  match v with
  | none => some 0
  | some s => if s = "" then some 0 else parseFloat s

/-- Python `float(v or 1)` for e-values: `none` when the call raises. -/
def pyEvalueRaise (v : Option String) : Option ℚ :=
  match v with
  | none => some 1
  | some s => if s = "" then some 1 else parseFloat s

/-- Python `try: float(row.get("score") or 0) except: 0.0` — the guarded score
coercion used by the threshold filters and best-hit selectors. -/
def scoreOf (r : Row) : ℚ := (pyFloatRaise r.score).getD 0

/-- The `(target_start, target_end)` pair as integers; `none` when either
`int(...)` call would raise. -/
def coordsOf (r : Row) : Option (Int × Int) :=
  match pyIntField r.target_start, pyIntField r.target_end with
  | some s, some e => some (s, e)
  | _, _ => none

/-! ## Identifier normalizers -/

/-- Cleanup `PTHR16038.orig.30.pir -> PTHR16038`. -/
def pthr_base_id (raw : String) : String :=
  if raw = "" then raw
  else
    let base := headPart '.' raw
    if strStarts base "PTHR" then base else raw

/-- Cleanup `143243.1 -> SSF143243`; ids already carrying `SSF` are unchanged. -/
def ssf_id (raw : String) : String :=
  if raw = "" then raw
  else if strStarts raw "SSF" then raw
  else
    let base := headPart '.' raw
    if allDigits base.toList then "SSF" ++ base else raw

/-- Split a character list at its last `'.'`: returns the part before and
the part after; `none` when no `'.'` occurs. -/
def rsplitLastDot : List Char → Option (List Char × List Char)
  | [] => none
  | c :: rest =>
    match rsplitLastDot rest with
    | some (b, a) => some (c :: b, a)
    | none => if c = '.' then some ([], rest) else none

/-- Cleanup `PF00329.26 -> PF00329`: remove a final `.`-delimited suffix when it is
nonempty and entirely numeric, else return the input unchanged. -/
def strip_version (acc : String) : String :=
  if acc = "" then acc
  else
    match rsplitLastDot acc.toList with
    | none => acc
    | some (b, suffix) =>
      if allDigits suffix then String.mk b else acc

/-- Strip a `-i1`/`-i2` style iteration suffix: `2vqeL00-i2 -> 2vqeL00`. -/
def cath_base_name (name : String) : String :=
  let cs := name.toList
  if name ≠ "" && cs.length ≥ 3
      && cs.getD (cs.length - 2) ' ' = 'i' && cs.getD (cs.length - 3) ' ' = '-' then
    String.mk (cs.take (cs.length - 3))
  else name

example : strip_version "PF00329.26" = "PF00329" := by decide
example : strip_version "NF009141.0" = "NF009141" := by decide
example : strip_version "ABC" = "ABC" := by decide
example : strip_version "A.b2" = "A.b2" := by decide
example : strip_version "A.1.2" = "A.1" := by decide
example : ssf_id "143243.1" = "SSF143243" := by decide
example : pthr_base_id "PTHR16038.orig.30.pir" = "PTHR16038" := by decide
example : cath_base_name "2vqeL00-i2" = "2vqeL00" := by decide
example : parseFloat "abc" = none := by decide
example : parseFloat "7" = some 7 := by decide
example : parseFloat "" = none := by decide
example : parseInt "-12" = some (-12) := by decide
example : joinWith "," ["a", "bc"] = "a,bc" := by decide
example : pyLower "HaMaP" = "hamap" := by decide

/-! ## Association-list dictionaries (insertion-ordered, like Python dicts) -/

/-- Lookup in an association list (first matching key). -/
def alookup {κ α : Type} [DecidableEq κ] : List (κ × α) → κ → Option α
  | [], _ => none
  | (k, v) :: rest, key => if k = key then some v else alookup rest key

/-- Assignment `d[k] = v`: replace the value in place when the key exists, else append
the new pair at the end (Python dicts preserve insertion order). -/
def dictSet {κ α : Type} [DecidableEq κ] : List (κ × α) → κ → α → List (κ × α)
  | [], k, v => [(k, v)]
  | (k', v') :: rest, k, v =>
    if k' = k then (k', v) :: rest else (k', v') :: dictSet rest k v

/-- The `defaultdict(list)` append: add `x` to the bucket of `k`, keeping the
bucket's position, or open a new bucket at the end. -/
def dictPush {κ : Type} [DecidableEq κ] : List (κ × List Row) → κ → Row → List (κ × List Row)
  | [], k, x => [(k, [x])]
  | (k', v) :: rest, k, x =>
    if k' = k then (k', v ++ [x]) :: rest else (k', v) :: dictPush rest k x

/-- Group rows by a key, preserving first-seen key order and, within a
bucket, row order — the `defaultdict(list)` idiom of the source. -/
def groupBy {κ : Type} [DecidableEq κ] (key : Row → κ) (rows : List Row) :
    List (κ × List Row) :=
  rows.foldl (fun d r => dictPush d (key r) r) []

/-! ## Filter primitives -/

/-- The inner redundancy test of `non_overlapping_hits`: does the accepted
row `sel` overlap `[start, e)` by more than `thr` of the shorter length?
Rows whose coordinates fail to parse are skipped (`continue`). -/
def tooMuchOverlap (thr : ℚ) (start e : Int) (sel : Row) : Bool :=
  match coordsOf sel with
  | none => false
  | some (ss, se) =>
    let overlap : Int := max 0 (min e se - max start ss)
    let shorter : Int := min (e - start) (se - ss)
    decide (0 < shorter ∧ (overlap : ℚ) / (shorter : ℚ) > thr)

/-- One iteration of the greedy loop of `non_overlapping_hits`: accept the
row unless some already-accepted row overlaps it too much; rows with
unparsable or degenerate coordinates are always accepted. -/
def nohStep (thr : ℚ) (accepted : List Row) (row : Row) : List Row :=
  match coordsOf row with
  | none => accepted ++ [row]
  | some (s, e) =>
    if e ≤ s then accepted ++ [row]
    else if accepted.any (tooMuchOverlap thr s e) then accepted
    else accepted ++ [row]

/-- The greedy loop of `non_overlapping_hits` over the remaining rows. -/
def noh_go (thr : ℚ) (accepted : List Row) : List Row → List Row
  | [] => accepted
  | row :: rest => noh_go thr (nohStep thr accepted row) rest

/-- Function `non_overlapping_hits(rows, overlap_threshold)`: greedy selection from a
list pre-sorted by score descending. -/
def non_overlapping_hits (rows : List Row) (thr : ℚ) : List Row :=
  noh_go thr [] rows

/-- One step of the running-best dictionary of `best_hit_per_target`:
`if target not in best or score > best[target][0]: best[target] = (score, row)`. -/
def bh_upd (best : List (String × (ℚ × Row))) (row : Row) :
    List (String × (ℚ × Row)) :=
  match alookup best (tgt row) with
  | none => dictSet best (tgt row) (scoreOf row, row)
  | some (m, _) =>
    if scoreOf row > m then dictSet best (tgt row) (scoreOf row, row) else best

/-- Ordering of `sorted(best.items(), key=lambda x: x[0])`. -/
def byFstStr (p q : String × (ℚ × Row)) : Prop := p.1 ≤ q.1

instance : DecidableRel byFstStr := fun p q =>
  decidable_of_iff (¬ q.1.toList < p.1.toList)
    (not_lt.trans (@String.le_iff_toList_le p.1 q.1).symm)

instance : IsTotal (String × (ℚ × Row)) byFstStr := ⟨fun a b => le_total a.1 b.1⟩

instance : IsTrans (String × (ℚ × Row)) byFstStr := ⟨fun _ _ _ h h' => le_trans h h'⟩

/-- Function `best_hit_per_target(rows)`: keep the highest-scoring row per target
(first row wins ties), output sorted by target ascending. -/
def best_hit_per_target (rows : List Row) : List Row :=
  ((rows.foldl bh_upd []).insertionSort byFstStr).map (fun p => p.2.2)

/-- Sort key relation for `sort(key=lambda r: float(r.get("score") or 0),
reverse=True)` on score-decorated rows: descending, stable on ties. -/
def byScoreDesc (p q : ℚ × Row) : Prop := q.1 ≤ p.1

instance : DecidableRel byScoreDesc := fun p q => inferInstanceAs (Decidable (q.1 ≤ p.1))

instance : IsTotal (ℚ × Row) byScoreDesc := ⟨fun a b => le_total b.1 a.1⟩

instance : IsTrans (ℚ × Row) byScoreDesc := ⟨fun _ _ _ h h' => le_trans h' h⟩

/-- Python `rows.sort(key=lambda r: float(r.get("score") or 0), reverse=True)`.
The key function calls `float` without a guard, so an unparsable nonempty
score cell raises `ValueError`; this is modelled by the `none` result. -/
def sortByScoreDesc (l : List Row) : Option (List Row) :=
  (l.mapM (fun r => (pyFloatRaise r.score).map (fun q => (q, r)))).map
    (fun ps => (ps.insertionSort byScoreDesc).map (fun p => p.2))

/-- Sort key relation for
`sort(key=lambda r: (r.get("target", ""), -float(r.get("score") or 0)))`:
target ascending, then score descending, stable. -/
def byTargetScore (p q : (String × ℚ) × Row) : Prop :=
  p.1.1 < q.1.1 ∨ (p.1.1 = q.1.1 ∧ q.1.2 ≤ p.1.2)

instance : DecidableRel byTargetScore := fun p q =>
  inferInstanceAs (Decidable (p.1.1 < q.1.1 ∨ (p.1.1 = q.1.1 ∧ q.1.2 ≤ p.1.2)))

/-- Python `result.sort(key=lambda r: (r.get("target", ""), -float(...)))` — again
with an unguarded `float` in the key. -/
def sortByTargetScore (l : List Row) : Option (List Row) :=
  (l.mapM (fun r => (pyFloatRaise r.score).map (fun q => ((tgt r, q), r)))).map
    (fun ps => (ps.insertionSort byTargetScore).map (fun p => p.2))

/-- Function `non_overlapping_per_domain(rows, overlap_threshold)`: group rows by
`(target, ACC)`, sort each group by score descending, apply
`non_overlapping_hits` per group, then re-sort by `(target, score desc)`. -/
def non_overlapping_per_domain (rows : List Row) (thr : ℚ) : Option (List Row) := do
  let groups := groupBy (fun r => (tgt r, accD r)) rows
  let result ← groups.foldlM (fun acc p => do
    let sorted ← sortByScoreDesc p.2
    pure (acc ++ non_overlapping_hits sorted thr)) []
  sortByTargetScore result

/-- Function `non_overlapping_per_protein(rows, overlap_threshold)`: as above but
grouped by target only, collapsing hits across families. -/
def non_overlapping_per_protein (rows : List Row) (thr : ℚ) : Option (List Row) := do
  let groups := groupBy tgt rows
  let result ← groups.foldlM (fun acc p => do
    let sorted ← sortByScoreDesc p.2
    pure (acc ++ non_overlapping_hits sorted thr)) []
  sortByTargetScore result

/-- The clan-conflict test of `pfam_clan_dedup`: an accepted row `sel` is a
conflict when it has the same clan and overlaps by more than `thr` of the
shorter hit. -/
def clanConflict (clans : List (String × String)) (thr : ℚ) (clan : String)
    (start e : Int) (sel : Row) : Bool :=
  if alookup clans (nameD sel) ≠ some clan then false
  else
    match coordsOf sel with
    | none => false
    | some (ss, se) =>
      let overlap : Int := max 0 (min e se - max start ss)
      let shorter : Int := min (e - start) (se - ss)
      decide (0 < shorter ∧ (overlap : ℚ) / (shorter : ℚ) > thr)

/-- One step of the greedy clan-dedup loop: rows with no clan or unparsable
coordinates are always accepted. -/
def clanStep (clans : List (String × String)) (thr : ℚ) (accepted : List Row)
    (row : Row) : List Row :=
  match alookup clans (nameD row) with
  | none => accepted ++ [row]
  | some clan =>
    match coordsOf row with
    | none => accepted ++ [row]
    | some (s, e) =>
      if accepted.any (clanConflict clans thr clan s e) then accepted
      else accepted ++ [row]

/-- Function `pfam_clan_dedup(rows, clans, overlap_threshold)`: per protein, sort by
score descending (unguarded `float` key) and greedily drop same-clan hits
that overlap an accepted hit by more than the threshold. -/
def pfam_clan_dedup (rows : List Row) (clans : List (String × String))
    (thr : ℚ) : Option (List Row) :=
  (groupBy tgt rows).foldlM (fun acc p => do
    let sorted ← sortByScoreDesc p.2
    pure (acc ++ sorted.foldl (clanStep clans thr) [])) []

/-- Lookup `ancestors_map.get(x, frozenset())` / `hierarchy.get(x, frozenset())`. -/
def ancGet (m : List (String × List String)) (k : String) : List String :=
  (alookup m k).getD []

/-- The keep test of `filter_sfld_hierarchy`: keep a row unless some other
matched accession of the same protein has it among its ancestors. -/
def sfldKeep (amap : List (String × List String)) (matched : List String)
    (row : Row) : Bool :=
  ! matched.any (fun other => other ≠ accD row && (ancGet amap other).contains (accD row))

/-- Function `filter_sfld_hierarchy(rows, ancestors_map)`: per protein, drop entries
that are ancestors of another matched entry. -/
def filter_sfld_hierarchy (rows : List Row)
    (amap : List (String × List String)) : List Row :=
  if amap = [] then rows
  else
    ((groupBy tgt rows).map (fun p =>
      p.2.filter (sfldKeep amap (p.2.map accD)))).flatten

/-- The keep test of `filter_pirsf_hierarchy`: keep a row unless one of its
direct children is also matched for the same protein. -/
def pirsfKeep (hier : List (String × List String)) (matched : List String)
    (row : Row) : Bool :=
  ! (ancGet hier (accD row)).any (fun c => matched.contains c)

/-- Function `filter_pirsf_hierarchy(rows, hierarchy)`: per protein, drop entries
whose direct children also matched. -/
def filter_pirsf_hierarchy (rows : List Row)
    (hier : List (String × List String)) : List Row :=
  if hier = [] then rows
  else
    ((groupBy tgt rows).map (fun p =>
      p.2.filter (pirsfKeep hier (p.2.map accD)))).flatten

/-! ## Annotation joiner -/

/-- Ascending sort of strings (Python `sorted` on `str`). -/
def sortStrings (l : List String) : List String :=
  l.insertionSort (· ≤ ·)

/-- Cross-reference lookup for one accession: primary lookup under
`(db_xml, acc)`, retried — when empty and the accession contains a `'.'` —
under the part of the accession before its **first** `'.'`. -/
def iprListFor (db_xml : String) (sig2ipr : List ((String × String) × List String))
    (acc : String) : List String :=
  let l := (alookup sig2ipr (db_xml, acc)).getD []
  if l = [] ∧ acc ≠ "" ∧ strHasChar acc '.' then
    (alookup sig2ipr (db_xml, headPart '.' acc)).getD []
  else l

/-- The deduplicated union of ontology terms over a cross-reference list
(the `go_set` of the source). -/
def goTermsFor (ipr2go : List (String × List String)) (ipr_list : List String) :
    List String :=
  ((ipr_list.map (fun i => (alookup ipr2go i).getD [])).flatten).dedup

/-- The per-row body of `annotate_ipr_go`. -/
def annotate_row (db_xml : String) (sig2ipr : List ((String × String) × List String))
    (ipr2go : List (String × List String)) (ipr_names : Option (List (String × String)))
    (do_ipr do_go : Bool) (row : Row) : Row :=
  let acc := pyStrip (sval row.ACC)
  let ipr_list := iprListFor db_xml sig2ipr acc
  let row1 :=
    if do_ipr then
      let r' := { row with InterPro := some (if ipr_list ≠ [] then joinWith "," ipr_list else "") }
      match ipr_names with
      | some names =>
        { r' with IPR_desc := some (joinWith "," (ipr_list.filterMap (fun i => alookup names i))) }
      | none => r'
    else row
  if do_go then
    let gos := goTermsFor ipr2go ipr_list
    { row1 with GO := some (if gos ≠ [] then joinWith "," (sortStrings gos) else "") }
  else row1

/-- Function `annotate_ipr_go(rows, ...)`: annotate every row in place. -/
def annotate_ipr_go (db_xml : String) (sig2ipr : List ((String × String) × List String))
    (ipr2go : List (String × List String)) (ipr_names : Option (List (String × String)))
    (do_ipr do_go : Bool) (rows : List Row) : List Row :=
  rows.map (annotate_row db_xml sig2ipr ipr2go ipr_names do_ipr do_go)

/-- The per-row body of the pass-through ("all other databases") writer
loop: like `annotate_row` but the lookup accession falls back to `NAME`
when `ACC` is blank, and `IPR_desc` is written whenever `--iprlookup` is
set (empty unless the name table is loaded and nonempty). -/
def fallback_row (db_xml : String) (sig2ipr : List ((String × String) × List String))
    (ipr2go : List (String × List String)) (ipr_names : Option (List (String × String)))
    (do_ipr do_go : Bool) (row : Row) : Row :=
  let acc0 := pyStrip (sval row.ACC)
  let acc := if acc0 = "" then pyStrip (sval row.NAME) else acc0
  let ipr_list := iprListFor db_xml sig2ipr acc
  let row1 :=
    if do_ipr then
      { row with
        InterPro := some (if ipr_list ≠ [] then joinWith "," ipr_list else ""),
        IPR_desc := some (match ipr_names with
          | some names =>
            if names ≠ [] then joinWith "," (ipr_list.filterMap (fun i => alookup names i))
            else ""
          | none => "") }
    else row
  if do_go then
    let gos := goTermsFor ipr2go ipr_list
    { row1 with GO := some (if gos ≠ [] then joinWith "," (sortStrings gos) else "") }
  else row1

/-! ## Database pipelines -/

/-- Per-row identifier/description rewrite of the PANTHER branch. -/
def panther_fix (names : List (String × String)) (hasDesc : Bool) (row : Row) : Row :=
  let base := pthr_base_id (firstTruthy row.NAME row.ACC)
  let r1 := { row with ACC := some base }
  if hasDesc ∧ pyStrip (sval r1.DESC) = "" then
    { r1 with DESC := some ((alookup names base).getD "") }
  else r1

/-- PANTHER pipeline: id cleanup, description backfill, best hit per target. -/
def panther_rows (names : List (String × String)) (hasDesc : Bool)
    (rows : List Row) : List Row :=
  best_hit_per_target (rows.map (panther_fix names hasDesc))

/-- Per-row accession backfill of the HAMAP branch. -/
def hamap_fix (row : Row) : Row :=
  if pyStrip (sval row.ACC) = "" then { row with ACC := some (pyStrip (sval row.NAME)) }
  else row

/-- HAMAP pipeline: accession backfill then best hit per target. -/
def hamap_rows (rows : List Row) : List Row :=
  best_hit_per_target (rows.map hamap_fix)

/-- SUPERFAMILY pipeline: e-value cutoff `1e-3`, id normalization, global
per-protein non-overlapping selection at threshold `0.35`. -/
def superfamily_rows (rows : List Row) : Option (List Row) :=
  let filtered := rows.filterMap (fun row =>
    let ev := (pyEvalueRaise row.evalue).getD 1
    if ev > 1 / 1000 then none
    else some { row with ACC := some (ssf_id (firstTruthy row.ACC row.NAME)) })
  non_overlapping_per_protein filtered (35 / 100)

/-- Pfam step 1: domain-level GA threshold plus version stripping. -/
def pfam_dom_filter (ga : List (String × (ℚ × ℚ))) (rows : List Row) : List Row :=
  rows.filterMap (fun row =>
    match alookup ga (nameD row) with
    | some t =>
      if scoreOf row < t.2 then none
      else some { row with ACC := some (strip_version (sval row.ACC)) }
    | none => some { row with ACC := some (strip_version (sval row.ACC)) })

/-- Pfam step 2: sequence-level GA threshold over the summed domain scores
of each `(target, NAME)` group — the sum calls `float` unguarded. -/
def pfam_seq_filter (ga : List (String × (ℚ × ℚ))) (rows : List Row) :
    Option (List Row) :=
  if ga = [] then some rows
  else
    (groupBy (fun r => (tgt r, nameD r)) rows).foldlM (fun acc p =>
      match alookup ga p.1.2 with
      | some t => do
        let scores ← p.2.mapM (fun r => pyFloatRaise r.score)
        if scores.sum < t.1 then pure acc else pure (acc ++ p.2)
      | none => pure (acc ++ p.2)) []

/-- Pfam pipeline: domain GA, sequence GA, clan dedup at threshold `0.50`. -/
def pfam_rows (ga : List (String × (ℚ × ℚ))) (clans : List (String × String))
    (rows : List Row) : Option (List Row) := do
  let after_seq ← pfam_seq_filter ga (pfam_dom_filter ga rows)
  pfam_clan_dedup after_seq clans (1 / 2)

/-- NCBIfam pipeline: sequence TC threshold, canonical version-stripped
accession. -/
def ncbifam_rows (tc : List (String × (ℚ × ℚ))) (rows : List Row) : List Row :=
  rows.filterMap (fun row =>
    match alookup tc (nameD row) with
    | some t =>
      if scoreOf row < t.1 then none
      else some { row with ACC := some (strip_version (firstTruthy row.ACC row.NAME)) }
    | none => some { row with ACC := some (strip_version (firstTruthy row.ACC row.NAME)) })

/-- SFLD pipeline: domain GA threshold then ancestor-map hierarchy filter. -/
def sfld_rows (ga : List (String × (ℚ × ℚ))) (amap : List (String × List String))
    (rows : List Row) : List Row :=
  let kept := rows.filter (fun row =>
    match alookup ga (nameD row) with
    | some t => ! decide (scoreOf row < t.2)
    | none => true)
  filter_sfld_hierarchy kept amap

/-- PIRSF threshold selection: the `.thresh` tuples when present, else the
statistics-derived map. -/
def pirsf_threshold_map (thresh_tuples : List (String × (ℚ × ℚ)))
    (dat : List (String × ℚ)) : List (String × ℚ) :=
  if thresh_tuples ≠ [] then thresh_tuples.map (fun p => (p.1, p.2.1)) else dat

/-- Per-row description backfill of the PIRSF branch. -/
def pirsf_fix_desc (row : Row) : Row :=
  if pyStrip (sval row.DESC) = "" then { row with DESC := some (pyStrip (sval row.NAME)) }
  else row

/-- PIRSF pipeline: per-family score threshold, description backfill,
direct-child hierarchy filter. -/
def pirsf_rows (thresholds : List (String × ℚ)) (hier : List (String × List String))
    (rows : List Row) : List Row :=
  let kept := rows.filterMap (fun row =>
    match alookup thresholds (pyStrip (sval row.ACC)) with
    | some th => if scoreOf row < th then none else some (pirsf_fix_desc row)
    | none => some (pirsf_fix_desc row))
  filter_pirsf_hierarchy kept hier

/-- CATH pipeline: model-name mapping (unmapped rows dropped), e-value and
bitscore cutoffs, global per-protein non-overlapping selection at `0.20`.
The `try` block parses the e-value first, so a failure of either parse
resets both values. -/
def cath_rows (cmap : List (String × String)) (rows : List Row) : Option (List Row) :=
  let mapped := rows.filterMap (fun row =>
    let domain := (alookup cmap (cath_base_name (firstTruthy row.ACC row.NAME))).getD ""
    if domain = "" then none
    else
      let p :=
        match pyEvalueRaise row.evalue, pyFloatRaise row.score with
        | some ev, some sc => (ev, sc)
        | _, _ => ((1 : ℚ), (0 : ℚ))
      if p.1 > 1 / 10000 then none
      else if p.2 < 10 then none
      else some { row with ACC := some domain })
  non_overlapping_per_protein mapped (20 / 100)

/-! ## The main program -/

/-- Table `DB_TO_XML` of the source. -/
def DB_TO_XML : List (String × String) :=
  [("pfam", "PFAM"), ("ncbifam", "NCBIFAM"), ("superfamily", "SSF"),
   ("hamap", "HAMAP"), ("sfld", "SFLD"), ("pirsf", "PIRSF"), ("pirsr", "PIRSR"),
   ("panther", "PANTHER"), ("cath", "CATHGENE3D"), ("antifam", "ANTIFAM")]

/-- Table `CUSTOM_DBS` of the source. -/
def CUSTOM_DBS : List String :=
  ["panther", "hamap", "superfamily", "pfam", "ncbifam", "sfld", "pirsf", "cath"]

/-- Command-line flags relevant to the processing core. -/
structure Args where
  db : String
  iprlookup : Bool
  goterms : Bool
deriving DecidableEq, Repr

/-- The preloaded reference tables (the loaders' results; file parsing is
outside this model, the tables are inputs). -/
structure RefData where
  sig2ipr : List ((String × String) × List String) := []
  ipr2go : List (String × List String) := []
  ipr_names : List (String × String) := []
  panther_names : List (String × String) := []
  pfam_ga : List (String × (ℚ × ℚ)) := []
  pfam_clans : List (String × String) := []
  ncbifam_tc : List (String × (ℚ × ℚ)) := []
  sfld_ga : List (String × (ℚ × ℚ)) := []
  sfld_ancestors : List (String × List String) := []
  pirsf_thresh : List (String × (ℚ × ℚ)) := []
  pirsf_dat : List (String × ℚ) := []
  pirsf_children : List (String × List String) := []
  cath_map : List (String × String) := []
deriving DecidableEq, Repr, Inhabited

/-- What the program writes to stdout: either the input file verbatim
(pass-through path) or a table with explicit fieldnames. -/
inductive Output where
  | raw (s : String)
  | table (fieldnames : List String) (rows : List Row)
deriving DecidableEq, Repr

/-- Index of the last occurrence of a name in the header (later duplicate
columns win in `dict(zip(...))`). -/
def lastIdxOf : List String → String → Option Nat
  | [], _ => none
  | s :: rest, c =>
    match lastIdxOf rest c with
    | some i => some (i + 1)
    | none => if s = c then some 0 else none

/-- Cell for one named column: `none` when the column is absent or the row
is too short (`restval=None`). -/
def colValue (header vals : List String) (c : String) : Option String :=
  match lastIdxOf header c with
  | none => none
  | some i => vals[i]?

/-- Build a row record from the header and one line's cells. -/
def mkRow (header vals : List String) : Row where
  target := colValue header vals "target"
  NAME := colValue header vals "NAME"
  ACC := colValue header vals "ACC"
  DESC := colValue header vals "DESC"
  target_start := colValue header vals "target_start"
  target_end := colValue header vals "target_end"
  query_start := colValue header vals "query_start"
  query_end := colValue header vals "query_end"
  score := colValue header vals "score"
  bias := colValue header vals "bias"
  evalue := colValue header vals "evalue"
  cell_frac := colValue header vals "cell_frac"
  InterPro := colValue header vals "InterPro"
  IPR_desc := colValue header vals "IPR_desc"
  GO := colValue header vals "GO"

/-- The tab-separated reader (over the columns of the row model; blank
lines are skipped, quoting is not modelled).  `none` models the reader
crash on an input with no header line. -/
def parseTable (s : String) : Option (List String × List Row) :=
  let lines := ((splitChar '\n' s.toList).filter (· ≠ [])).map String.mk
  match lines with
  | [] => none
  | h :: t =>
    let header := (splitChar '\t' h.toList).map String.mk
    some (header, t.map (fun line => mkRow header ((splitChar '\t' line.toList).map String.mk)))

/-- Insert `IPR_desc` right after the existing `InterPro` column. -/
def insertIprDesc (fns : List String) : List String :=
  let i := fns.indexOf "InterPro"
  fns.take (i + 1) ++ ["IPR_desc"] ++ fns.drop (i + 1)

/-- The output fieldnames: add `InterPro`/`IPR_desc`/`GO` as requested,
then remove `NAME`. -/
def computeFieldnames (fns0 : List String) (ipr go : Bool) : List String :=
  let f1 :=
    if ipr ∧ ¬ fns0.contains "InterPro" then fns0 ++ ["InterPro", "IPR_desc"]
    else if ipr ∧ ¬ fns0.contains "IPR_desc" then insertIprDesc fns0
    else fns0
  let f2 := if go ∧ ¬ f1.contains "GO" then f1 ++ ["GO"] else f1
  f2.filter (· ≠ "NAME")

/-- The per-database dispatch of `main`: the row list actually written
(`none` when the Python run would abort on an exception). -/
def pipeline_rows (db db_xml : String) (data : RefData)
    (sig2ipr : List ((String × String) × List String))
    (ipr2go : List (String × List String)) (ipr_names : Option (List (String × String)))
    (ipr go : Bool) (fns : List String) (rows0 : List Row) : Option (List Row) :=
  let ann := annotate_ipr_go db_xml sig2ipr ipr2go ipr_names ipr go
  if db = "panther" then
    some (ann (panther_rows data.panther_names (fns.contains "DESC") rows0))
  else if db = "hamap" then some (ann (hamap_rows rows0))
  else if db = "superfamily" then (superfamily_rows rows0).map ann
  else if db = "pfam" then (pfam_rows data.pfam_ga data.pfam_clans rows0).map ann
  else if db = "ncbifam" then some (ann (ncbifam_rows data.ncbifam_tc rows0))
  else if db = "sfld" then some (ann (sfld_rows data.sfld_ga data.sfld_ancestors rows0))
  else if db = "pirsf" then
    some (ann (pirsf_rows (pirsf_threshold_map data.pirsf_thresh data.pirsf_dat)
      data.pirsf_children rows0))
  else if db = "cath" then (cath_rows data.cath_map rows0).map ann
  else some (rows0.map (fallback_row db_xml sig2ipr ipr2go ipr_names ipr go))

/-- The whole program on one input: pass-through when the database is
unregistered and no annotation flag is set, else parse, filter, annotate
and emit a table without the `NAME` column. -/
def mainOutput (args : Args) (data : RefData) (input : String) : Option Output :=
  let db := pyLower args.db
  let db_xml := (alookup DB_TO_XML db).getD (pyUpper args.db)
  let needs_custom := CUSTOM_DBS.contains db
  if ¬ args.iprlookup ∧ ¬ args.goterms ∧ ¬ needs_custom then some (Output.raw input)
  else
    let sig2ipr := if args.iprlookup ∨ args.goterms then data.sig2ipr else []
    let ipr2go := if args.goterms then data.ipr2go else []
    let ipr_names := if args.iprlookup then some data.ipr_names else none
    match parseTable input with
    | none => none
    | some (fns0, rows0) =>
      let fns := computeFieldnames fns0 args.iprlookup args.goterms
      (pipeline_rows db db_xml data sig2ipr ipr2go ipr_names args.iprlookup
        args.goterms fns rows0).map (fun rs => Output.table fns rs)

/-- Cell text of a row under one output column (unknown columns are blank). -/
def rowGet (r : Row) (c : String) : String :=
  if c = "target" then sval r.target
  else if c = "NAME" then sval r.NAME
  else if c = "ACC" then sval r.ACC
  else if c = "DESC" then sval r.DESC
  else if c = "target_start" then sval r.target_start
  else if c = "target_end" then sval r.target_end
  else if c = "query_start" then sval r.query_start
  else if c = "query_end" then sval r.query_end
  else if c = "score" then sval r.score
  else if c = "bias" then sval r.bias
  else if c = "evalue" then sval r.evalue
  else if c = "cell_frac" then sval r.cell_frac
  else if c = "InterPro" then sval r.InterPro
  else if c = "IPR_desc" then sval r.IPR_desc
  else if c = "GO" then sval r.GO
  else ""

/-- The tab-separated writer: header line then one line per row. -/
def serializeTable (fns : List String) (rows : List Row) : String :=
  String.join (((joinWith "\t" fns) ::
    rows.map (fun r => joinWith "\t" (fns.map (rowGet r)))).map (· ++ "\n"))

/-- The bytes written to stdout. -/
def outputBytes : Output → String
  | .raw s => s
  | .table fns rows => serializeTable fns rows

/-- The column names of the emitted table (for the raw pass-through, the
names on the echoed header line). -/
def outputFieldnames : Output → List String
  | .raw s =>
    (splitChar '\t' (((splitChar '\n' s.toList).filter (· ≠ [])).headD [])).map String.mk
  | .table fns _ => fns

/-- The emitted row records (empty for a raw echo or an aborted run). -/
def outputRows : Option Output → List Row
  | some (.table _ rs) => rs
  | _ => []

/-! ## Lemmas about `strip_version` -/

theorem string_eq_empty_iff (s : String) : s = "" ↔ s.toList = [] := by
  constructor
  · rintro rfl; rfl
  · intro h; cases s; simp_all [String.toList]

theorem string_toList_append (a b : String) :
    (a ++ b).toList = a.toList ++ b.toList := by
  simp [String.toList]

theorem rsplitLastDot_eq_none {cs : List Char} (h : '.' ∉ cs) :
    rsplitLastDot cs = none := by
  induction cs with
  | nil => rfl
  | cons c rest ih =>
    simp only [List.mem_cons, not_or] at h
    have hc : c ≠ '.' := fun hc => h.1 hc.symm
    simp [rsplitLastDot, ih h.2, hc]

theorem rsplitLastDot_none_not_mem {cs : List Char} (h : rsplitLastDot cs = none) :
    '.' ∉ cs := by
  induction cs with
  | nil => simp
  | cons c rest ih =>
    simp only [rsplitLastDot] at h
    cases hr : rsplitLastDot rest with
    | some p => rw [hr] at h; cases h
    | none =>
      rw [hr] at h
      by_cases hc : c = '.'
      · simp [hc] at h
      · simp only [List.mem_cons, not_or]
        exact ⟨fun hd => hc hd.symm, ih hr⟩

theorem rsplitLastDot_eq_some {cs : List Char} {b a : List Char}
    (h : rsplitLastDot cs = some (b, a)) : cs = b ++ '.' :: a ∧ '.' ∉ a := by
  induction cs generalizing b a with
  | nil => simp [rsplitLastDot] at h
  | cons c rest ih =>
    simp only [rsplitLastDot] at h
    cases hr : rsplitLastDot rest with
    | some p =>
      obtain ⟨p1, p2⟩ := p
      rw [hr] at h
      simp only [Option.some.injEq, Prod.mk.injEq] at h
      obtain ⟨hb, ha⟩ := h
      obtain ⟨hrest, hnm⟩ := ih hr
      subst hb
      subst ha
      subst hrest
      exact ⟨rfl, hnm⟩
    | none =>
      rw [hr] at h
      by_cases hc : c = '.'
      · subst hc
        rw [if_pos rfl] at h
        simp only [Option.some.injEq, Prod.mk.injEq] at h
        obtain ⟨hb, ha⟩ := h
        subst hb
        subst ha
        exact ⟨rfl, rsplitLastDot_none_not_mem hr⟩
      · simp [hc] at h

theorem rsplitLastDot_append {b a : List Char} (h : '.' ∉ a) :
    rsplitLastDot (b ++ '.' :: a) = some (b, a) := by
  induction b with
  | nil => simp [rsplitLastDot, rsplitLastDot_eq_none h]
  | cons c rest ih => simp [rsplitLastDot, ih]

theorem strip_version_of_rsplit_none {s : String} (hs : s ≠ "")
    (hr : rsplitLastDot s.toList = none) : strip_version s = s := by
  unfold strip_version
  rw [if_neg hs, hr]

theorem strip_version_of_rsplit_some {s : String} {b suf : List Char} (hs : s ≠ "")
    (hr : rsplitLastDot s.toList = some (b, suf)) :
    strip_version s = if allDigits suf then String.mk b else s := by
  unfold strip_version
  rw [if_neg hs, hr]

theorem strip_version_no_dot {s : String} (h : '.' ∉ s.toList) :
    strip_version s = s := by
  by_cases hs : s = ""
  · rw [hs]; rfl
  · exact strip_version_of_rsplit_none hs (rsplitLastDot_eq_none h)

theorem string_dotjoin_toList (before after : String) :
    (before ++ "." ++ after).toList = before.toList ++ '.' :: after.toList := by
  simp [string_toList_append]

theorem string_dotjoin_ne_empty (before after : String) :
    before ++ "." ++ after ≠ "" := by
  intro hc
  have h1 : (before ++ "." ++ after).toList = [] := by rw [hc]; rfl
  rw [string_dotjoin_toList] at h1
  simp at h1

theorem strip_version_remove {before after : String} (hd : '.' ∉ after.toList)
    (hne : after ≠ "") (hdig : after.toList.all (·.isDigit) = true) :
    strip_version (before ++ "." ++ after) = before := by
  have hda : allDigits after.toList = true := by
    have h1 : after.toList ≠ [] := fun hl => hne ((string_eq_empty_iff after).2 hl)
    simp only [allDigits, Bool.and_eq_true, decide_eq_true_eq]
    refine ⟨by simpa using h1, hdig⟩
  rw [strip_version_of_rsplit_some (string_dotjoin_ne_empty before after)
    (by rw [string_dotjoin_toList]; exact rsplitLastDot_append hd), if_pos hda]
  rfl

theorem strip_version_keep {before after : String} (hd : '.' ∉ after.toList)
    (hfail : ¬ (after ≠ "" ∧ after.toList.all (·.isDigit) = true)) :
    strip_version (before ++ "." ++ after) = before ++ "." ++ after := by
  have hda : allDigits after.toList = false := by
    by_cases hne : after = ""
    · have h0 : after.toList = [] := (string_eq_empty_iff after).1 hne
      rw [h0]
      rfl
    · have h1 : after.toList.all (·.isDigit) = false := by
        cases hall : after.toList.all (·.isDigit) with
        | false => rfl
        | true => exact absurd ⟨hne, hall⟩ hfail
      unfold allDigits
      rw [h1, Bool.and_false]
  rw [strip_version_of_rsplit_some (string_dotjoin_ne_empty before after)
    (by rw [string_dotjoin_toList]; exact rsplitLastDot_append hd),
    if_neg (by rw [hda]; simp)]

theorem strip_version_idem_of_count {s : String} (h : s.toList.count '.' ≤ 1) :
    strip_version (strip_version s) = strip_version s := by
  by_cases hs : s = ""
  · subst hs; rfl
  · cases hr : rsplitLastDot s.toList with
    | none =>
      rw [strip_version_of_rsplit_none hs hr, strip_version_of_rsplit_none hs hr]
    | some p =>
      obtain ⟨b, suf⟩ := p
      obtain ⟨heq, hnm⟩ := rsplitLastDot_eq_some hr
      cases hda : allDigits suf with
      | false =>
        have h1 : strip_version s = s := by
          rw [strip_version_of_rsplit_some hs hr, if_neg (by simp [hda])]
        rw [h1, h1]
      | true =>
        have h1 : strip_version s = String.mk b := by
          rw [strip_version_of_rsplit_some hs hr, if_pos hda]
        rw [h1]
        have hb : '.' ∉ b := by
          intro hmem
          rw [heq, List.count_append, List.count_cons] at h
          have h2 : 0 < b.count '.' := List.count_pos_iff.2 hmem
          simp at h
          omega
        exact strip_version_no_dot hb

/-! ## Lemmas about `non_overlapping_hits` -/

theorem nohStep_acc_subset (thr : ℚ) (acc : List Row) (row : Row) :
    ∀ {x}, x ∈ acc → x ∈ nohStep thr acc row := by
  intro x h
  unfold nohStep
  cases hc : coordsOf row with
  | none => exact List.mem_append_left _ h
  | some p =>
    obtain ⟨s, e⟩ := p
    by_cases he : e ≤ s
    · simp only [if_pos he]
      exact List.mem_append_left _ h
    · simp only [if_neg he]
      by_cases ha : acc.any (tooMuchOverlap thr s e) = true
      · simp only [if_pos ha]
        exact h
      · simp only [if_neg ha]
        exact List.mem_append_left _ h

theorem noh_go_acc_mem (thr : ℚ) :
    ∀ (l acc : List Row) {x : Row}, x ∈ acc → x ∈ noh_go thr acc l := by
  intro l
  induction l with
  | nil => intro acc x h; exact h
  | cons r rest ih =>
    intro acc x h
    exact ih _ (nohStep_acc_subset thr acc r h)

theorem nohStep_accepts_bad (thr : ℚ) (acc : List Row) (row : Row)
    (h : coordsOf row = none ∨ ∃ s e, coordsOf row = some (s, e) ∧ e ≤ s) :
    row ∈ nohStep thr acc row := by
  unfold nohStep
  rcases h with h | ⟨s, e, h, he⟩
  · rw [h]
    exact List.mem_append_right _ (List.mem_singleton.2 rfl)
  · rw [h]
    simp only [if_pos he]
    exact List.mem_append_right _ (List.mem_singleton.2 rfl)

theorem noh_bad_mem (thr : ℚ) :
    ∀ (l acc : List Row) (r : Row), r ∈ l →
      (coordsOf r = none ∨ ∃ s e, coordsOf r = some (s, e) ∧ e ≤ s) →
      r ∈ noh_go thr acc l := by
  intro l
  induction l with
  | nil => intro acc r hr; cases hr
  | cons a rest ih =>
    intro acc r hr hbad
    rcases List.mem_cons.1 hr with rfl | hr
    · exact noh_go_acc_mem thr rest _ (nohStep_accepts_bad thr acc r hbad)
    · exact ih _ r hr hbad

theorem tooMuchOverlap_eq_true_iff {thr : ℚ} {s e : Int} (sel : Row) (hse : s < e) :
    tooMuchOverlap thr s e sel = true ↔
      ∃ ss se', coordsOf sel = some (ss, se') ∧ ss < se' ∧
        ((max 0 (min e se' - max s ss) : Int) : ℚ) >
          thr * ((min (e - s) (se' - ss) : Int) : ℚ) := by
  unfold tooMuchOverlap
  cases hc : coordsOf sel with
  | none => simp
  | some p =>
    obtain ⟨ss, se'⟩ := p
    simp only [decide_eq_true_eq, Option.some.injEq, Prod.mk.injEq]
    constructor
    · rintro ⟨hpos, hdiv⟩
      rcases lt_min_iff.1 hpos with ⟨h1, h2⟩
      have hshort : (0 : ℚ) < ((min (e - s) (se' - ss) : Int) : ℚ) := by
        exact_mod_cast hpos
      exact ⟨ss, se', ⟨rfl, rfl⟩, by omega, (lt_div_iff₀ hshort).1 hdiv⟩
    · rintro ⟨ss2, se2, ⟨h1, h2⟩, hlt, hmul⟩
      subst h1
      subst h2
      have hpos : (0 : Int) < min (e - s) (se' - ss) := lt_min_iff.2 ⟨by omega, by omega⟩
      have hshort : (0 : ℚ) < ((min (e - s) (se' - ss) : Int) : ℚ) := by
        exact_mod_cast hpos
      exact ⟨hpos, (lt_div_iff₀ hshort).2 hmul⟩

theorem nohStep_reject_iff (thr : ℚ) (acc : List Row) (row : Row) (s e : Int)
    (hc : coordsOf row = some (s, e)) (hse : s < e) :
    nohStep thr acc row = acc ↔
      ∃ sel ∈ acc, ∃ ss se', coordsOf sel = some (ss, se') ∧ ss < se' ∧
        ((max 0 (min e se' - max s ss) : Int) : ℚ) >
          thr * ((min (e - s) (se' - ss) : Int) : ℚ) := by
  unfold nohStep
  rw [hc]
  simp only [if_neg (not_le.2 hse)]
  by_cases ha : acc.any (tooMuchOverlap thr s e) = true
  · rw [if_pos ha]
    simp only [true_iff, eq_self_iff_true]
    rcases List.any_eq_true.1 ha with ⟨sel, hsel, htm⟩
    rcases (tooMuchOverlap_eq_true_iff sel hse).1 htm with ⟨ss, se', h1, h2, h3⟩
    exact ⟨sel, hsel, ss, se', h1, h2, h3⟩
  · rw [if_neg ha]
    constructor
    · intro hcontra
      have : (acc ++ [row]).length = acc.length := by rw [hcontra]
      simp at this
    · rintro ⟨sel, hsel, ss, se', h1, h2, h3⟩
      exfalso
      apply ha
      exact List.any_eq_true.2 ⟨sel, hsel,
        (tooMuchOverlap_eq_true_iff sel hse).2 ⟨ss, se', h1, h2, h3⟩⟩

/-- The two-interval example rows of the specification. -/
def hit_0_100 : Row :=
  { target := some "P1", score := some "100",
    target_start := some "0", target_end := some "100" }

/-- Lower-scoring interval `[90, 200]`. -/
def hit_90_200 : Row :=
  { target := some "P1", score := some "50",
    target_start := some "90", target_end := some "200" }

/-- Lower-scoring interval `[50, 150]`. -/
def hit_50_150 : Row :=
  { target := some "P1", score := some "50",
    target_start := some "50", target_end := some "150" }

/-- A row with an unparsable start coordinate. -/
def hit_bad_coords : Row :=
  { target := some "P1", score := some "7",
    target_start := some "x", target_end := some "5" }

theorem tooMuch_90_200_false : tooMuchOverlap (1/4) 90 200 hit_0_100 = false := by
  unfold tooMuchOverlap
  rw [show coordsOf hit_0_100 = some (0, 100) from by decide]
  simp only [decide_eq_false_iff_not, not_and]
  intro hpos
  rw [show (max 0 (min (200 : Int) 100 - max 90 0) : Int) = 10 from by decide,
    show (min ((200 : Int) - 90) (100 - 0) : Int) = 100 from by decide]
  norm_num

theorem tooMuch_50_150_true : tooMuchOverlap (1/4) 50 150 hit_0_100 = true := by
  unfold tooMuchOverlap
  rw [show coordsOf hit_0_100 = some (0, 100) from by decide]
  simp only [decide_eq_true_eq]
  constructor
  · decide
  · rw [show (max 0 (min (150 : Int) 100 - max 50 0) : Int) = 50 from by decide,
      show (min ((150 : Int) - 50) (100 - 0) : Int) = 100 from by decide]
    norm_num

theorem nohStep_nil_first : nohStep (1/4) [] hit_0_100 = [hit_0_100] := by
  unfold nohStep
  rw [show coordsOf hit_0_100 = some (0, 100) from by decide]
  norm_num

/-- C1: in `non_overlapping_hits` (rows pre-sorted by score descending),
a row with parsable, nondegenerate coordinates is rejected exactly when
some already-accepted row with parsable, nondegenerate coordinates overlaps
it by strictly more than `overlap_threshold` of the shorter interval length,
with `overlap = max(0, min(end_a, end_b) - max(start_a, start_b))`; rows
with unparsable or degenerate (`end <= start`) coordinates are always
accepted (and, by the same characterization, never cause a rejection).
With threshold `0.25`, `[90, 200]` is accepted after `[0, 100]` while
`[50, 150]` is rejected after `[0, 100]`. -/
theorem C1_non_overlapping_hits :
    (∀ (thr : ℚ) (rows : List Row) (r : Row), r ∈ rows →
      (coordsOf r = none ∨ ∃ s e, coordsOf r = some (s, e) ∧ e ≤ s) →
      r ∈ non_overlapping_hits rows thr) ∧
    (∀ (thr : ℚ) (acc : List Row) (row : Row) (s e : Int),
      coordsOf row = some (s, e) → s < e →
      (nohStep thr acc row = acc ↔
        ∃ sel ∈ acc, ∃ ss se', coordsOf sel = some (ss, se') ∧ ss < se' ∧
          ((max 0 (min e se' - max s ss) : Int) : ℚ) >
            thr * ((min (e - s) (se' - ss) : Int) : ℚ))) ∧
    non_overlapping_hits [hit_0_100, hit_90_200] (1/4) = [hit_0_100, hit_90_200] ∧
    non_overlapping_hits [hit_0_100, hit_50_150] (1/4) = [hit_0_100] := by
  refine ⟨fun thr rows r hr hbad => noh_bad_mem thr rows [] r hr hbad,
    fun thr acc row s e hc hse => nohStep_reject_iff thr acc row s e hc hse, ?_, ?_⟩
  · show nohStep (1/4) (nohStep (1/4) [] hit_0_100) hit_90_200 = _
    rw [nohStep_nil_first]
    unfold nohStep
    rw [show coordsOf hit_90_200 = some (90, 200) from by decide]
    simp only [List.any_cons, List.any_nil, tooMuch_90_200_false, Bool.or_false]
    norm_num
  · show nohStep (1/4) (nohStep (1/4) [] hit_0_100) hit_50_150 = _
    rw [nohStep_nil_first]
    unfold nohStep
    rw [show coordsOf hit_50_150 = some (50, 150) from by decide]
    simp only [List.any_cons, List.any_nil, tooMuch_50_150_true, Bool.true_or]
    norm_num

/-- C1 (witness): a row with an unparsable coordinate is accepted. -/
theorem C1_non_overlapping_hits_witness :
    hit_bad_coords ∈ non_overlapping_hits [hit_bad_coords] (1/4) :=
  C1_non_overlapping_hits.1 (1/4) [hit_bad_coords] hit_bad_coords (by decide)
    (Or.inl (by decide))

/-- C4 (counterexample): `strip_version` is not idempotent on every string —
on `"A.1.2"` a second application strips a second numeric suffix. -/
theorem C4_strip_version_counterexample :
    strip_version (strip_version "A.1.2") ≠ strip_version "A.1.2" := by decide

/-- C4 (amended): `strip_version` removes a final `'.'`-delimited suffix
exactly when that suffix is nonempty and entirely numeric and otherwise
returns its input unchanged; it is idempotent on every string containing at
most one `'.'`, but not on arbitrary strings. -/
theorem C4_strip_version_amended :
    (∀ s : String, '.' ∉ s.toList → strip_version s = s) ∧
    (∀ before after : String, '.' ∉ after.toList → after ≠ "" →
      after.toList.all (·.isDigit) = true →
      strip_version (before ++ "." ++ after) = before) ∧
    (∀ before after : String, '.' ∉ after.toList →
      ¬ (after ≠ "" ∧ after.toList.all (·.isDigit) = true) →
      strip_version (before ++ "." ++ after) = before ++ "." ++ after) ∧
    (∀ s : String, s.toList.count '.' ≤ 1 →
      strip_version (strip_version s) = strip_version s) :=
  ⟨fun _ h => strip_version_no_dot h,
   fun _ _ hd hne hdig => strip_version_remove hd hne hdig,
   fun _ _ hd hfail => strip_version_keep hd hfail,
   fun _ h => strip_version_idem_of_count h⟩

/-- C4 (witness): the amended statement applied at `"PF00329.26"`. -/
theorem C4_strip_version_witness :
    strip_version ("PF00329" ++ "." ++ "26") = "PF00329" ∧
    strip_version (strip_version "PF00329.26") = strip_version "PF00329.26" :=
  ⟨C4_strip_version_amended.2.1 "PF00329" "26" (by decide) (by decide) (by decide),
   C4_strip_version_amended.2.2.2 "PF00329.26" (by decide)⟩

/-! ## Association-list and grouping lemmas -/

theorem alookup_eq_none_iff {κ α : Type} [DecidableEq κ] (d : List (κ × α)) (k : κ) :
    alookup d k = none ↔ k ∉ d.map Prod.fst := by
  induction d with
  | nil => simp [alookup]
  | cons p rest ih =>
    obtain ⟨k', v⟩ := p
    by_cases h : k' = k
    · subst h
      simp [alookup]
    · simp only [alookup, if_neg h, List.map_cons, List.mem_cons, ih]
      constructor
      · intro hn h1
        rcases h1 with h1 | h1
        · exact h h1.symm
        · exact hn h1
      · intro hn hmem
        exact hn (Or.inr hmem)

theorem alookup_mem {κ α : Type} [DecidableEq κ] {d : List (κ × α)} {k : κ} {v : α}
    (h : alookup d k = some v) : (k, v) ∈ d := by
  induction d with
  | nil => cases h
  | cons p rest ih =>
    obtain ⟨k', v'⟩ := p
    by_cases hk : k' = k
    · subst hk
      have h' : v' = v := by simpa [alookup] using h
      subst h'
      exact List.mem_cons_self _ _
    · simp only [alookup, if_neg hk] at h
      exact List.mem_cons_of_mem _ (ih h)

theorem mem_alookup {κ α : Type} [DecidableEq κ] {d : List (κ × α)} {k : κ} {v : α}
    (hnd : (d.map Prod.fst).Nodup) (h : (k, v) ∈ d) : alookup d k = some v := by
  induction d with
  | nil => cases h
  | cons p rest ih =>
    obtain ⟨k', v'⟩ := p
    simp only [List.map_cons, List.nodup_cons] at hnd
    rcases List.mem_cons.1 h with heq | hmem
    · have hk : k = k' := congrArg Prod.fst heq
      have hv : v = v' := congrArg Prod.snd heq
      subst hk
      subst hv
      simp [alookup]
    · have hk : k' ≠ k := by
        intro hc
        subst hc
        exact hnd.1 (List.mem_map.2 ⟨(k', v), hmem, rfl⟩)
      simp only [alookup, if_neg hk]
      exact ih hnd.2 hmem

/-- Combine a prior bucket with newly filtered rows. -/
def optAppend {α : Type} (b : Option (List α)) (g : List α) : Option (List α) :=
  match b, g with
  | none, [] => none
  | none, g => some g
  | some b, g => some (b ++ g)

theorem alookup_append {κ α : Type} [DecidableEq κ] (d e : List (κ × α)) (k : κ) :
    alookup (d ++ e) k = (alookup d k).or (alookup e k) := by
  induction d with
  | nil => simp [alookup]
  | cons p rest ih =>
    obtain ⟨k', v⟩ := p
    by_cases h : k' = k
    · subst h
      simp [alookup]
    · simp [alookup, if_neg h, ih]

theorem alookup_dictPush {κ : Type} [DecidableEq κ] (d : List (κ × List Row)) (k k' : κ)
    (x : Row) :
    alookup (dictPush d k x) k' =
      if k' = k then some ((alookup d k).getD [] ++ [x]) else alookup d k' := by
  induction d with
  | nil =>
    simp only [dictPush, alookup]
    by_cases hk : k' = k
    · subst hk
      simp
    · rw [if_neg (fun h : k = k' => hk h.symm), if_neg hk]
  | cons p rest ih =>
    obtain ⟨a, b⟩ := p
    by_cases hak : a = k
    · subst hak
      by_cases hk : k' = a
      · subst hk
        simp [dictPush, alookup]
      · simp only [dictPush, if_pos rfl, alookup,
          if_neg (fun h : a = k' => hk h.symm), if_neg hk]
    · by_cases hk : k' = a
      · subst hk
        simp [dictPush, alookup, hak, fun h : k' = k => hak h]
      · simp only [dictPush, if_neg hak, alookup,
          if_neg (fun h : a = k' => hk h.symm), ih, if_neg hk]

theorem alookup_groupBy_foldl {κ : Type} [DecidableEq κ] (key : Row → κ) :
    ∀ (rows : List Row) (d : List (κ × List Row)) (k : κ),
      alookup (rows.foldl (fun d r => dictPush d (key r) r) d) k =
        optAppend (alookup d k) (rows.filter (fun r => decide (key r = k))) := by
  intro rows
  induction rows with
  | nil =>
    intro d k
    cases h : alookup d k <;> simp [optAppend, h]
  | cons r rest ih =>
    intro d k
    rw [List.foldl_cons, ih]
    by_cases hk : key r = k
    · subst hk
      rw [alookup_dictPush, if_pos rfl]
      have hfc : (r :: rest).filter (fun x => decide (key x = key r)) =
          r :: rest.filter (fun x => decide (key x = key r)) := by
        simp [List.filter_cons]
      rw [hfc]
      cases hd : alookup d (key r) with
      | none => simp [optAppend, hd]
      | some b => simp [optAppend, hd, List.append_assoc]
    · rw [alookup_dictPush, if_neg (fun hc => hk hc.symm)]
      have hfc : (r :: rest).filter (fun r => decide (key r = k)) =
          rest.filter (fun r => decide (key r = k)) := by
        simp [List.filter_cons, hk]
      rw [hfc]

theorem dictPush_keys {κ : Type} [DecidableEq κ] (d : List (κ × List Row)) (k : κ)
    (x : Row) :
    (dictPush d k x).map Prod.fst =
      if k ∈ d.map Prod.fst then d.map Prod.fst else d.map Prod.fst ++ [k] := by
  induction d with
  | nil => simp [dictPush]
  | cons p rest ih =>
    obtain ⟨a, b⟩ := p
    by_cases hak : a = k
    · subst hak
      simp [dictPush]
    · rw [dictPush, if_neg hak]
      simp only [List.map_cons, ih]
      by_cases hm : k ∈ rest.map Prod.fst
      · rw [if_pos hm, if_pos (List.mem_cons_of_mem a hm)]
      · rw [if_neg hm,
          if_neg (fun hc => (List.mem_cons.1 hc).elim (fun h => hak h.symm) hm)]
        simp

theorem dictPush_keys_nodup {κ : Type} [DecidableEq κ] (d : List (κ × List Row)) (k : κ)
    (x : Row) (h : (d.map Prod.fst).Nodup) : ((dictPush d k x).map Prod.fst).Nodup := by
  rw [dictPush_keys]
  by_cases hm : k ∈ d.map Prod.fst
  · rw [if_pos hm]
    exact h
  · rw [if_neg hm]
    simp [List.nodup_append, h, hm]

theorem groupBy_keys_nodup {κ : Type} [DecidableEq κ] (key : Row → κ) (rows : List Row) :
    ((groupBy key rows).map Prod.fst).Nodup := by
  unfold groupBy
  suffices h : ∀ (l : List Row) (d : List (κ × List Row)), (d.map Prod.fst).Nodup →
      ((l.foldl (fun d r => dictPush d (key r) r) d).map Prod.fst).Nodup by
    exact h rows [] (by simp)
  intro l
  induction l with
  | nil => intro d hd; exact hd
  | cons r rest ih =>
    intro d hd
    exact ih _ (dictPush_keys_nodup d (key r) r hd)

theorem groupBy_bucket_eq_filter {κ : Type} [DecidableEq κ] {key : Row → κ}
    {rows : List Row} {k : κ} {grp : List Row} (h : (k, grp) ∈ groupBy key rows) :
    grp = rows.filter (fun r => decide (key r = k)) ∧ grp ≠ [] := by
  have hl := mem_alookup (groupBy_keys_nodup key rows) h
  rw [show groupBy key rows = rows.foldl (fun d r => dictPush d (key r) r) [] from rfl,
    alookup_groupBy_foldl key rows [] k] at hl
  rw [show alookup ([] : List (κ × List Row)) k = none from rfl] at hl
  cases hf : rows.filter (fun r => decide (key r = k)) with
  | nil => rw [hf] at hl; cases hl
  | cons a l =>
    rw [hf] at hl
    simp only [optAppend, Option.some.injEq] at hl
    exact ⟨hl.symm ▸ rfl, by rw [← hl]; simp⟩

theorem mem_of_mem_groupBy {κ : Type} [DecidableEq κ] {key : Row → κ}
    {rows : List Row} {p : κ × List Row} (hp : p ∈ groupBy key rows) {r : Row}
    (hr : r ∈ p.2) : r ∈ rows ∧ key r = p.1 := by
  obtain ⟨k, grp⟩ := p
  obtain ⟨heq, -⟩ := groupBy_bucket_eq_filter hp
  rw [heq] at hr
  have := List.mem_filter.1 hr
  exact ⟨this.1, by simpa using this.2⟩

theorem mem_groupBy_of_mem {κ : Type} [DecidableEq κ] (key : Row → κ)
    {rows : List Row} {r : Row} (hr : r ∈ rows) :
    ∃ grp, (key r, grp) ∈ groupBy key rows ∧ r ∈ grp := by
  have hmem : r ∈ rows.filter (fun x => decide (key x = key r)) :=
    List.mem_filter.2 ⟨hr, by simp⟩
  have hne : rows.filter (fun x => decide (key x = key r)) ≠ [] := by
    intro hc
    rw [hc] at hmem
    cases hmem
  have hl : alookup (groupBy key rows) (key r) =
      some (rows.filter (fun x => decide (key x = key r))) := by
    rw [show groupBy key rows = rows.foldl (fun d x => dictPush d (key x) x) [] from rfl,
      alookup_groupBy_foldl key rows [] (key r)]
    rw [show alookup ([] : List (κ × List Row)) (key r) = none from rfl]
    cases hf : rows.filter (fun x => decide (key x = key r)) with
    | nil => exact absurd hf hne
    | cons a l => simp [optAppend]
  exact ⟨_, alookup_mem hl, hmem⟩

/-! ## Hierarchy filter lemmas -/

theorem ancGet_nil (k : String) : ancGet [] k = [] := rfl

theorem contains_true_iff (l : List String) (a : String) :
    l.contains a = true ↔ a ∈ l := List.elem_iff

theorem contains_false_iff (l : List String) (a : String) :
    l.contains a = false ↔ a ∉ l := by
  constructor
  · intro h hm
    rw [(contains_true_iff l a).2 hm] at h
    cases h
  · intro h
    cases hb : l.contains a
    · rfl
    · exact absurd ((contains_true_iff l a).1 hb) h

theorem sfld_drop {amap : List (String × List String)} {rows : List Row}
    {t P C : String} (hPC : P ∈ ancGet amap C) (hCP : C ≠ P)
    (hC : ∃ rc ∈ rows, tgt rc = t ∧ accD rc = C) :
    ∀ r ∈ rows, tgt r = t → accD r = P → r ∉ filter_sfld_hierarchy rows amap := by
  intro r hr ht hacc hmem
  have hamap : amap ≠ [] := by
    intro hc
    rw [hc, ancGet_nil] at hPC
    cases hPC
  rw [filter_sfld_hierarchy, if_neg hamap] at hmem
  rcases List.mem_flatten.1 hmem with ⟨l, hl, hrl⟩
  rcases List.mem_map.1 hl with ⟨p, hp, rfl⟩
  have hfil := List.mem_filter.1 hrl
  have hkey := mem_of_mem_groupBy hp hfil.1
  obtain ⟨rc, hrc, hrct, hrcC⟩ := hC
  have hpt : p.1 = t := by rw [← hkey.2, ht]
  have hrcp : rc ∈ p.2 := by
    obtain ⟨heqf, -⟩ := groupBy_bucket_eq_filter (show (p.1, p.2) ∈ _ from hp)
    rw [heqf]
    exact List.mem_filter.2 ⟨hrc, by simp [hrct, hpt]⟩
  have hCmem : C ∈ p.2.map accD := List.mem_map.2 ⟨rc, hrcp, hrcC⟩
  have hkeep := hfil.2
  rw [sfldKeep, Bool.not_eq_true'] at hkeep
  have hfalse := List.any_eq_false.1 hkeep C hCmem
  rw [hacc] at hfalse
  rw [Bool.not_eq_true, Bool.and_eq_false_iff] at hfalse
  rcases hfalse with hfalse | hfalse
  · rw [decide_eq_false_iff_not] at hfalse
    exact hfalse hCP
  · exact (contains_false_iff _ _).1 hfalse hPC

theorem sfld_survive {amap : List (String × List String)} {rows : List Row}
    {t P : String}
    (hno : ∀ other, (∃ x ∈ rows, tgt x = t ∧ accD x = other) → other ≠ P →
      P ∉ ancGet amap other) :
    ∀ r ∈ rows, tgt r = t → accD r = P → r ∈ filter_sfld_hierarchy rows amap := by
  intro r hr ht hacc
  by_cases hamap : amap = []
  · rw [filter_sfld_hierarchy, if_pos hamap]
    exact hr
  · rw [filter_sfld_hierarchy, if_neg hamap]
    obtain ⟨grp, hp, hrg⟩ := mem_groupBy_of_mem tgt hr
    apply List.mem_flatten.2
    refine ⟨grp.filter (sfldKeep amap (grp.map accD)),
      List.mem_map.2 ⟨(tgt r, grp), hp, rfl⟩, ?_⟩
    apply List.mem_filter.2
    refine ⟨hrg, ?_⟩
    rw [sfldKeep, Bool.not_eq_true']
    apply List.any_eq_false.2
    intro other hother
    rcases List.mem_map.1 hother with ⟨x, hxg, rfl⟩
    have hx := mem_of_mem_groupBy hp hxg
    by_cases hop : accD x = accD r
    · simp [hop]
    · have hnp : P ∉ ancGet amap (accD x) := by
        apply hno (accD x) ⟨x, hx.1, by rw [hx.2, ht], rfl⟩
        rw [← hacc]
        exact hop
      rw [Bool.not_eq_true, Bool.and_eq_false_iff]
      right
      apply (contains_false_iff _ _).2
      rw [hacc]
      exact hnp

theorem pirsf_drop {hier : List (String × List String)} {rows : List Row}
    {t P C : String} (hPC : C ∈ ancGet hier P)
    (hC : ∃ rc ∈ rows, tgt rc = t ∧ accD rc = C) :
    ∀ r ∈ rows, tgt r = t → accD r = P → r ∉ filter_pirsf_hierarchy rows hier := by
  intro r hr ht hacc hmem
  have hh : hier ≠ [] := by
    intro hc
    rw [hc, ancGet_nil] at hPC
    cases hPC
  rw [filter_pirsf_hierarchy, if_neg hh] at hmem
  rcases List.mem_flatten.1 hmem with ⟨l, hl, hrl⟩
  rcases List.mem_map.1 hl with ⟨p, hp, rfl⟩
  have hfil := List.mem_filter.1 hrl
  have hkey := mem_of_mem_groupBy hp hfil.1
  obtain ⟨rc, hrc, hrct, hrcC⟩ := hC
  have hpt : p.1 = t := by rw [← hkey.2, ht]
  have hrcp : rc ∈ p.2 := by
    obtain ⟨heqf, -⟩ := groupBy_bucket_eq_filter (show (p.1, p.2) ∈ _ from hp)
    rw [heqf]
    exact List.mem_filter.2 ⟨hrc, by simp [hrct, hpt]⟩
  have hCmem : C ∈ p.2.map accD := List.mem_map.2 ⟨rc, hrcp, hrcC⟩
  have hkeep := hfil.2
  rw [pirsfKeep, Bool.not_eq_true'] at hkeep
  rw [hacc] at hkeep
  have hfalse := List.any_eq_false.1 hkeep C hPC
  exact hfalse ((contains_true_iff _ _).2 hCmem)

theorem pirsf_survive {hier : List (String × List String)} {rows : List Row}
    {t P : String}
    (hno : ∀ c ∈ ancGet hier P, ¬ ∃ x ∈ rows, tgt x = t ∧ accD x = c) :
    ∀ r ∈ rows, tgt r = t → accD r = P → r ∈ filter_pirsf_hierarchy rows hier := by
  intro r hr ht hacc
  by_cases hh : hier = []
  · rw [filter_pirsf_hierarchy, if_pos hh]
    exact hr
  · rw [filter_pirsf_hierarchy, if_neg hh]
    obtain ⟨grp, hp, hrg⟩ := mem_groupBy_of_mem tgt hr
    apply List.mem_flatten.2
    refine ⟨grp.filter (pirsfKeep hier (grp.map accD)),
      List.mem_map.2 ⟨(tgt r, grp), hp, rfl⟩, ?_⟩
    apply List.mem_filter.2
    refine ⟨hrg, ?_⟩
    rw [pirsfKeep, Bool.not_eq_true', hacc]
    apply List.any_eq_false.2
    intro c hc hcontains
    rcases List.mem_map.1 ((contains_true_iff _ _).1 hcontains) with ⟨x, hxg, rfl⟩
    have hx := mem_of_mem_groupBy hp hxg
    exact hno (accD x) hc ⟨x, hx.1, by rw [hx.2, ht], rfl⟩

/-- C3: hierarchy pruning, in both the ancestor-map form
(`filter_sfld_hierarchy`) and the direct-child-map form
(`filter_pirsf_hierarchy`): whenever a parent id `P` and a child id `C` of
`P` are both matched for a target, every row carrying `P` for that target
is dropped; and a row carrying `P` survives when no matched id of its
target is a descendant of `P` (ancestor form: no matched other id has `P`
among its ancestors; child form: no direct child of `P` is matched). -/
theorem C3_hierarchy_prune :
    (∀ (amap : List (String × List String)) (rows : List Row) (t P C : String),
      P ∈ ancGet amap C → C ≠ P →
      (∃ rc ∈ rows, tgt rc = t ∧ accD rc = C) →
      ∀ r ∈ rows, tgt r = t → accD r = P → r ∉ filter_sfld_hierarchy rows amap) ∧
    (∀ (amap : List (String × List String)) (rows : List Row) (t P : String),
      (∀ other, (∃ x ∈ rows, tgt x = t ∧ accD x = other) → other ≠ P →
        P ∉ ancGet amap other) →
      ∀ r ∈ rows, tgt r = t → accD r = P → r ∈ filter_sfld_hierarchy rows amap) ∧
    (∀ (hier : List (String × List String)) (rows : List Row) (t P C : String),
      C ∈ ancGet hier P →
      (∃ rc ∈ rows, tgt rc = t ∧ accD rc = C) →
      ∀ r ∈ rows, tgt r = t → accD r = P → r ∉ filter_pirsf_hierarchy rows hier) ∧
    (∀ (hier : List (String × List String)) (rows : List Row) (t P : String),
      (∀ c ∈ ancGet hier P, ¬ ∃ x ∈ rows, tgt x = t ∧ accD x = c) →
      ∀ r ∈ rows, tgt r = t → accD r = P → r ∈ filter_pirsf_hierarchy rows hier) :=
  ⟨fun _ _ _ _ _ h1 h2 h3 => sfld_drop h1 h2 h3,
   fun _ _ _ _ h => sfld_survive h,
   fun _ _ _ _ _ h1 h2 => pirsf_drop h1 h2,
   fun _ _ _ _ h => pirsf_survive h⟩

/-- Example ancestor map: the family knows its superfamily as ancestor. -/
def sfld_amap_ex : List (String × List String) := [("SFLDF00157", ["SFLDS00014"])]

/-- A row matching the superfamily (parent) entry. -/
def row_parent : Row := { target := some "T1", ACC := some "SFLDS00014" }

/-- A row matching the family (child) entry. -/
def row_child : Row := { target := some "T1", ACC := some "SFLDF00157" }

/-- C3 (witness): with both parent and child matched, the parent row is
pruned. -/
theorem C3_hierarchy_prune_witness :
    row_parent ∉ filter_sfld_hierarchy [row_parent, row_child] sfld_amap_ex :=
  C3_hierarchy_prune.1 sfld_amap_ex [row_parent, row_child] "T1" "SFLDS00014"
    "SFLDF00157" (by decide) (by decide)
    ⟨row_child, by decide, by decide, by decide⟩
    row_parent (by decide) (by decide) (by decide)

/-! ## Lemmas about `best_hit_per_target` -/

theorem alookup_dictSet {κ α : Type} [DecidableEq κ] (d : List (κ × α)) (k k' : κ)
    (v : α) :
    alookup (dictSet d k v) k' = if k' = k then some v else alookup d k' := by
  induction d with
  | nil =>
    by_cases hk : k' = k
    · subst hk
      simp [dictSet, alookup]
    · simp only [dictSet, alookup]
      rw [if_neg (fun h : k = k' => hk h.symm), if_neg hk]
  | cons p rest ih =>
    obtain ⟨a, b⟩ := p
    by_cases hak : a = k
    · subst hak
      by_cases hk : k' = a
      · subst hk
        simp [dictSet, alookup]
      · simp only [dictSet, if_pos rfl, alookup,
          if_neg (fun h : a = k' => hk h.symm), if_neg hk]
    · simp only [dictSet, if_neg hak]
      by_cases hk : k' = a
      · subst hk
        simp [alookup, hak]
      · simp only [alookup, if_neg (fun h : a = k' => hk h.symm), ih]

theorem dictSet_keys {κ α : Type} [DecidableEq κ] (d : List (κ × α)) (k : κ) (v : α) :
    (dictSet d k v).map Prod.fst =
      if k ∈ d.map Prod.fst then d.map Prod.fst else d.map Prod.fst ++ [k] := by
  induction d with
  | nil => simp [dictSet]
  | cons p rest ih =>
    obtain ⟨a, b⟩ := p
    by_cases hak : a = k
    · subst hak
      simp [dictSet]
    · rw [dictSet, if_neg hak]
      simp only [List.map_cons, ih]
      by_cases hm : k ∈ rest.map Prod.fst
      · rw [if_pos hm, if_pos (List.mem_cons_of_mem a hm)]
      · rw [if_neg hm,
          if_neg (fun hc => (List.mem_cons.1 hc).elim (fun h => hak h.symm) hm)]
        simp

theorem dictSet_keys_nodup {κ α : Type} [DecidableEq κ] (d : List (κ × α)) (k : κ)
    (v : α) (h : (d.map Prod.fst).Nodup) : ((dictSet d k v).map Prod.fst).Nodup := by
  rw [dictSet_keys]
  by_cases hm : k ∈ d.map Prod.fst
  · rw [if_pos hm]
    exact h
  · rw [if_neg hm]
    simp [List.nodup_append, h, hm]

theorem find?_append_some {α : Type} {l₁ l₂ : List α} {p : α → Bool} {a : α}
    (h : l₁.find? p = some a) : (l₁ ++ l₂).find? p = some a := by
  induction l₁ with
  | nil => cases h
  | cons x rest ih =>
    cases hx : p x with
    | true =>
      rw [List.find?_cons_of_pos _ hx] at h
      rw [List.cons_append, List.find?_cons_of_pos _ hx]
      exact h
    | false =>
      rw [List.find?_cons_of_neg _ (by simp [hx])] at h
      rw [List.cons_append, List.find?_cons_of_neg _ (by simp [hx])]
      exact ih h

theorem find?_append_none {α : Type} {l₁ l₂ : List α} {p : α → Bool}
    (h : l₁.find? p = none) : (l₁ ++ l₂).find? p = l₂.find? p := by
  induction l₁ with
  | nil => rfl
  | cons x rest ih =>
    cases hx : p x with
    | true =>
      rw [List.find?_cons_of_pos _ hx] at h
      cases h
    | false =>
      rw [List.find?_cons_of_neg _ (by simp [hx])] at h
      rw [List.cons_append, List.find?_cons_of_neg _ (by simp [hx])]
      exact ih h

/-- The rows of a given target, in input order. -/
def targetRows (rows : List Row) (t : String) : List Row :=
  rows.filter (fun x => decide (tgt x = t))

theorem targetRows_append_hit {p : List Row} {row : Row} {t : String}
    (h : tgt row = t) : targetRows (p ++ [row]) t = targetRows p t ++ [row] := by
  simp [targetRows, List.filter_append, h]

theorem targetRows_append_miss {p : List Row} {row : Row} {t : String}
    (h : tgt row ≠ t) : targetRows (p ++ [row]) t = targetRows p t := by
  simp [targetRows, List.filter_append, h]

/-- Invariant of the running-best dictionary of `best_hit_per_target`. -/
def bhInv (processed : List Row) (best : List (String × (ℚ × Row))) : Prop :=
  (best.map Prod.fst).Nodup ∧
  (∀ t, alookup best t = none ↔ targetRows processed t = []) ∧
  (∀ t m r, alookup best t = some (m, r) →
    tgt r = t ∧ m = scoreOf r ∧ r ∈ targetRows processed t ∧
    (∀ x ∈ targetRows processed t, scoreOf x ≤ m) ∧
    (targetRows processed t).find? (fun x => decide (scoreOf x = m)) = some r)

theorem bhInv_step {p : List Row} {best : List (String × (ℚ × Row))}
    (inv : bhInv p best) (row : Row) : bhInv (p ++ [row]) (bh_upd best row) := by
  obtain ⟨hnd, hnone, hsome⟩ := inv
  cases hlk : alookup best (tgt row) with
  | none =>
    have hupd : bh_upd best row = dictSet best (tgt row) (scoreOf row, row) := by
      unfold bh_upd
      rw [hlk]
    have hemp : targetRows p (tgt row) = [] := (hnone (tgt row)).1 hlk
    rw [hupd]
    refine ⟨dictSet_keys_nodup _ _ _ hnd, ?_, ?_⟩
    · intro t
      rw [alookup_dictSet]
      by_cases ht : t = tgt row
      · subst ht
        rw [if_pos rfl, targetRows_append_hit rfl, hemp]
        simp
      · rw [if_neg ht, targetRows_append_miss (fun hc => ht hc.symm)]
        exact hnone t
    · intro t m r hl
      rw [alookup_dictSet] at hl
      by_cases ht : t = tgt row
      · subst ht
        rw [if_pos rfl] at hl
        simp only [Option.some.injEq, Prod.mk.injEq] at hl
        obtain ⟨hm, hr⟩ := hl
        subst hm
        subst hr
        rw [targetRows_append_hit rfl, hemp, List.nil_append]
        refine ⟨rfl, rfl, by simp, ?_, ?_⟩
        · intro x hx
          rw [List.mem_singleton.1 hx]
        · rw [List.find?_cons_of_pos _ (by simp)]
      · rw [if_neg ht] at hl
        rw [targetRows_append_miss (fun hc => ht hc.symm)]
        exact hsome t m r hl
  | some v =>
    obtain ⟨m0, r0⟩ := v
    obtain ⟨hb1, hb2, hb3, hb4, hb5⟩ := hsome (tgt row) m0 r0 hlk
    by_cases hgt : scoreOf row > m0
    · have hupd : bh_upd best row = dictSet best (tgt row) (scoreOf row, row) := by
        unfold bh_upd
        rw [hlk]
        simp only [if_pos hgt]
      rw [hupd]
      refine ⟨dictSet_keys_nodup _ _ _ hnd, ?_, ?_⟩
      · intro t
        rw [alookup_dictSet]
        by_cases ht : t = tgt row
        · subst ht
          rw [if_pos rfl, targetRows_append_hit rfl]
          simp
        · rw [if_neg ht, targetRows_append_miss (fun hc => ht hc.symm)]
          exact hnone t
      · intro t m r hl
        rw [alookup_dictSet] at hl
        by_cases ht : t = tgt row
        · subst ht
          rw [if_pos rfl] at hl
          simp only [Option.some.injEq, Prod.mk.injEq] at hl
          obtain ⟨hm, hr⟩ := hl
          subst hm
          subst hr
          rw [targetRows_append_hit rfl]
          refine ⟨rfl, rfl, List.mem_append_right _ (by simp), ?_, ?_⟩
          · intro x hx
            rcases List.mem_append.1 hx with hx | hx
            · exact le_trans (hb4 x hx) (le_of_lt hgt)
            · rw [List.mem_singleton.1 hx]
          · have hTnone : (targetRows p (tgt row)).find?
                (fun x => decide (scoreOf x = scoreOf row)) = none := by
              apply List.find?_eq_none.2
              intro x hx
              simp only [decide_eq_true_eq]
              intro hc
              have := hb4 x hx
              rw [hc] at this
              exact absurd hgt (not_lt.2 this)
            rw [find?_append_none hTnone, List.find?_cons_of_pos _ (by simp)]
        · rw [if_neg ht] at hl
          rw [targetRows_append_miss (fun hc => ht hc.symm)]
          exact hsome t m r hl
    · have hupd : bh_upd best row = best := by
        unfold bh_upd
        rw [hlk]
        simp only [if_neg hgt]
      rw [hupd]
      refine ⟨hnd, ?_, ?_⟩
      · intro t
        by_cases ht : t = tgt row
        · subst ht
          rw [hlk, targetRows_append_hit rfl]
          simp
        · rw [targetRows_append_miss (fun hc => ht hc.symm)]
          exact hnone t
      · intro t m r hl
        by_cases ht : t = tgt row
        · subst ht
          rw [hlk] at hl
          simp only [Option.some.injEq, Prod.mk.injEq] at hl
          obtain ⟨hm, hr⟩ := hl
          subst hm
          subst hr
          rw [targetRows_append_hit rfl]
          refine ⟨hb1, hb2, List.mem_append_left _ hb3, ?_, find?_append_some hb5⟩
          intro x hx
          rcases List.mem_append.1 hx with hx | hx
          · exact hb4 x hx
          · rw [List.mem_singleton.1 hx]
            exact not_lt.1 hgt
        · rw [targetRows_append_miss (fun hc => ht hc.symm)]
          exact hsome t m r hl

theorem bhInv_foldl : ∀ (rows p : List Row) (best : List (String × (ℚ × Row))),
    bhInv p best → bhInv (p ++ rows) (rows.foldl bh_upd best) := by
  intro rows
  induction rows with
  | nil =>
    intro p best h
    simpa using h
  | cons r rest ih =>
    intro p best h
    have h2 := ih (p ++ [r]) (bh_upd best r) (bhInv_step h r)
    rw [List.append_assoc] at h2
    simpa using h2

theorem bhInv_nil : bhInv [] [] := by
  refine ⟨by simp, ?_, ?_⟩
  · intro t
    simp [alookup, targetRows]
  · intro t m r h
    cases h

theorem bhInv_rows (rows : List Row) : bhInv rows (rows.foldl bh_upd []) := by
  have h := bhInv_foldl rows [] [] bhInv_nil
  simpa using h

/-- C2: `best_hit_per_target` returns exactly one row per distinct target
(the targets of the output are duplicate-free and are exactly the targets
of the input); each returned row comes from the input and its coerced
score is the maximum coerced score of its target's rows; among the rows of
that target attaining the maximum, the first-encountered one in input
order is returned (it is the first row of the target whose score equals
the returned score); and the output is ordered by target ascending. -/
theorem C2_best_hit_per_target (rows : List Row) :
    ((best_hit_per_target rows).map tgt).Nodup ∧
    (∀ t, (∃ r ∈ rows, tgt r = t) ↔ ∃ r ∈ best_hit_per_target rows, tgt r = t) ∧
    (∀ r ∈ best_hit_per_target rows,
      r ∈ rows ∧
      (∀ x ∈ rows, tgt x = tgt r → scoreOf x ≤ scoreOf r) ∧
      (targetRows rows (tgt r)).find?
        (fun x => decide (scoreOf x = scoreOf r)) = some r) ∧
    List.Sorted (· ≤ ·) ((best_hit_per_target rows).map tgt) := by
  obtain ⟨hnd, hnone, hsome⟩ := bhInv_rows rows
  have hperm : List.Perm ((rows.foldl bh_upd []).insertionSort byFstStr)
      (rows.foldl bh_upd []) :=
    List.perm_insertionSort _ _
  have hentry : ∀ p ∈ (rows.foldl bh_upd []).insertionSort byFstStr,
      tgt p.2.2 = p.1 ∧ p.2.1 = scoreOf p.2.2 ∧
      p.2.2 ∈ targetRows rows p.1 ∧
      (∀ x ∈ targetRows rows p.1, scoreOf x ≤ p.2.1) ∧
      (targetRows rows p.1).find? (fun x => decide (scoreOf x = p.2.1)) = some p.2.2 := by
    intro p hp
    have hpi : p ∈ rows.foldl bh_upd [] := hperm.mem_iff.1 hp
    have hl : alookup (rows.foldl bh_upd []) p.1 = some p.2 :=
      mem_alookup hnd (by exact hpi)
    exact hsome p.1 p.2.1 p.2.2 hl
  have hmapeq : (best_hit_per_target rows).map tgt =
      ((rows.foldl bh_upd []).insertionSort byFstStr).map Prod.fst := by
    rw [show best_hit_per_target rows =
      ((rows.foldl bh_upd []).insertionSort byFstStr).map (fun p => p.2.2) from rfl]
    rw [List.map_map]
    exact List.map_congr_left (fun p hp => (hentry p hp).1)
  refine ⟨?_, ?_, ?_, ?_⟩
  · rw [hmapeq]
    exact ((hperm.map Prod.fst).nodup_iff).2 hnd
  · intro t
    constructor
    · rintro ⟨r, hr, rfl⟩
      have hmemf : r ∈ targetRows rows (tgt r) := List.mem_filter.2 ⟨hr, by simp⟩
      have hne : targetRows rows (tgt r) ≠ [] := by
        intro hc
        rw [hc] at hmemf
        cases hmemf
      cases hlk : alookup (rows.foldl bh_upd []) (tgt r) with
      | none => exact absurd ((hnone (tgt r)).1 hlk) hne
      | some v =>
        obtain ⟨m, rb⟩ := v
        have hmem : ((tgt r), (m, rb)) ∈ rows.foldl bh_upd [] := alookup_mem hlk
        have hsorted : ((tgt r), (m, rb)) ∈
            (rows.foldl bh_upd []).insertionSort byFstStr := hperm.mem_iff.2 hmem
        have hb := hsome (tgt r) m rb hlk
        exact ⟨rb, List.mem_map.2 ⟨((tgt r), (m, rb)), hsorted, rfl⟩, hb.1⟩
    · rintro ⟨r, hr, rfl⟩
      rcases List.mem_map.1 hr with ⟨p, hp, rfl⟩
      have h := hentry p hp
      have hin := List.mem_filter.1 h.2.2.1
      exact ⟨p.2.2, hin.1, rfl⟩
  · intro r hr
    rcases List.mem_map.1 hr with ⟨p, hp, rfl⟩
    have h := hentry p hp
    have hin := List.mem_filter.1 h.2.2.1
    refine ⟨hin.1, ?_, ?_⟩
    · intro x hx hxt
      have hxm : x ∈ targetRows rows p.1 :=
        List.mem_filter.2 ⟨hx, by rw [← h.1]; simp [hxt]⟩
      have hle := h.2.2.2.1 x hxm
      rw [← h.2.1]
      exact hle
    · have hf := h.2.2.2.2
      rw [h.1, ← h.2.1]
      exact hf
  · rw [hmapeq]
    have hs : List.Sorted byFstStr ((rows.foldl bh_upd []).insertionSort byFstStr) :=
      List.sorted_insertionSort byFstStr _
    exact List.Pairwise.map Prod.fst (fun a b hab => hab) hs

/-- First of two equal-score rows of the same target. -/
def bh_first : Row := { target := some "A", NAME := some "n1", score := some "3" }

/-- Second of two equal-score rows of the same target. -/
def bh_second : Row := { target := some "A", NAME := some "n2", score := some "3" }

/-- C2 (witness): on a tie, the first-encountered row is the one returned. -/
theorem C2_best_hit_per_target_witness :
    (targetRows [bh_first, bh_second] (tgt bh_first)).find?
      (fun x => decide (scoreOf x = scoreOf bh_first)) = some bh_first :=
  ((C2_best_hit_per_target [bh_first, bh_second]).2.2.1 bh_first (by decide)).2.2

/-! ## Annotation joiner theorems -/

theorem annotate_row_frame_fields (db_xml : String)
    (sig2ipr : List ((String × String) × List String))
    (ipr2go : List (String × List String)) (ipr_names : Option (List (String × String)))
    (do_ipr do_go : Bool) (row : Row) :
    (annotate_row db_xml sig2ipr ipr2go ipr_names do_ipr do_go row).target = row.target ∧
    (annotate_row db_xml sig2ipr ipr2go ipr_names do_ipr do_go row).NAME = row.NAME ∧
    (annotate_row db_xml sig2ipr ipr2go ipr_names do_ipr do_go row).ACC = row.ACC ∧
    (annotate_row db_xml sig2ipr ipr2go ipr_names do_ipr do_go row).DESC = row.DESC ∧
    (annotate_row db_xml sig2ipr ipr2go ipr_names do_ipr do_go row).target_start
      = row.target_start ∧
    (annotate_row db_xml sig2ipr ipr2go ipr_names do_ipr do_go row).target_end
      = row.target_end ∧
    (annotate_row db_xml sig2ipr ipr2go ipr_names do_ipr do_go row).query_start
      = row.query_start ∧
    (annotate_row db_xml sig2ipr ipr2go ipr_names do_ipr do_go row).query_end
      = row.query_end ∧
    (annotate_row db_xml sig2ipr ipr2go ipr_names do_ipr do_go row).score = row.score ∧
    (annotate_row db_xml sig2ipr ipr2go ipr_names do_ipr do_go row).bias = row.bias ∧
    (annotate_row db_xml sig2ipr ipr2go ipr_names do_ipr do_go row).evalue = row.evalue ∧
    (annotate_row db_xml sig2ipr ipr2go ipr_names do_ipr do_go row).cell_frac
      = row.cell_frac := by
  unfold annotate_row
  cases do_ipr <;> cases do_go <;> cases ipr_names <;> simp

theorem annotate_row_id (db_xml : String)
    (sig2ipr : List ((String × String) × List String))
    (ipr2go : List (String × List String)) (ipr_names : Option (List (String × String)))
    (row : Row) :
    annotate_row db_xml sig2ipr ipr2go ipr_names false false row = row := rfl

/-- C10: `annotate_ipr_go` neither adds nor removes rows and preserves
their order (the i-th output row is the annotated i-th input row); it
writes at most the `InterPro`, `IPR_desc` and `GO` fields, leaving every
other field of every row unchanged; and with both flags false it leaves
the row list entirely unchanged. -/
theorem C10_annotate_frame (db_xml : String)
    (sig2ipr : List ((String × String) × List String))
    (ipr2go : List (String × List String)) (ipr_names : Option (List (String × String)))
    (do_ipr do_go : Bool) (rows : List Row) :
    (annotate_ipr_go db_xml sig2ipr ipr2go ipr_names do_ipr do_go rows).length
      = rows.length ∧
    (∀ i (h : i < rows.length)
      (h2 : i < (annotate_ipr_go db_xml sig2ipr ipr2go ipr_names do_ipr do_go rows).length),
      (annotate_ipr_go db_xml sig2ipr ipr2go ipr_names do_ipr do_go rows).get ⟨i, h2⟩
        = annotate_row db_xml sig2ipr ipr2go ipr_names do_ipr do_go (rows.get ⟨i, h⟩) ∧
      ((annotate_ipr_go db_xml sig2ipr ipr2go ipr_names do_ipr do_go rows).get
          ⟨i, h2⟩).target = (rows.get ⟨i, h⟩).target ∧
      ((annotate_ipr_go db_xml sig2ipr ipr2go ipr_names do_ipr do_go rows).get
          ⟨i, h2⟩).NAME = (rows.get ⟨i, h⟩).NAME ∧
      ((annotate_ipr_go db_xml sig2ipr ipr2go ipr_names do_ipr do_go rows).get
          ⟨i, h2⟩).ACC = (rows.get ⟨i, h⟩).ACC ∧
      ((annotate_ipr_go db_xml sig2ipr ipr2go ipr_names do_ipr do_go rows).get
          ⟨i, h2⟩).DESC = (rows.get ⟨i, h⟩).DESC ∧
      ((annotate_ipr_go db_xml sig2ipr ipr2go ipr_names do_ipr do_go rows).get
          ⟨i, h2⟩).target_start = (rows.get ⟨i, h⟩).target_start ∧
      ((annotate_ipr_go db_xml sig2ipr ipr2go ipr_names do_ipr do_go rows).get
          ⟨i, h2⟩).target_end = (rows.get ⟨i, h⟩).target_end ∧
      ((annotate_ipr_go db_xml sig2ipr ipr2go ipr_names do_ipr do_go rows).get
          ⟨i, h2⟩).query_start = (rows.get ⟨i, h⟩).query_start ∧
      ((annotate_ipr_go db_xml sig2ipr ipr2go ipr_names do_ipr do_go rows).get
          ⟨i, h2⟩).query_end = (rows.get ⟨i, h⟩).query_end ∧
      ((annotate_ipr_go db_xml sig2ipr ipr2go ipr_names do_ipr do_go rows).get
          ⟨i, h2⟩).score = (rows.get ⟨i, h⟩).score ∧
      ((annotate_ipr_go db_xml sig2ipr ipr2go ipr_names do_ipr do_go rows).get
          ⟨i, h2⟩).bias = (rows.get ⟨i, h⟩).bias ∧
      ((annotate_ipr_go db_xml sig2ipr ipr2go ipr_names do_ipr do_go rows).get
          ⟨i, h2⟩).evalue = (rows.get ⟨i, h⟩).evalue ∧
      ((annotate_ipr_go db_xml sig2ipr ipr2go ipr_names do_ipr do_go rows).get
          ⟨i, h2⟩).cell_frac = (rows.get ⟨i, h⟩).cell_frac) ∧
    (do_ipr = false → do_go = false →
      annotate_ipr_go db_xml sig2ipr ipr2go ipr_names do_ipr do_go rows = rows) := by
  refine ⟨List.length_map .., ?_, ?_⟩
  · intro i h h2
    have hget : (annotate_ipr_go db_xml sig2ipr ipr2go ipr_names do_ipr do_go rows).get
        ⟨i, h2⟩ = annotate_row db_xml sig2ipr ipr2go ipr_names do_ipr do_go
          (rows.get ⟨i, h⟩) := by
      simp [annotate_ipr_go]
    rw [hget]
    exact ⟨rfl, annotate_row_frame_fields db_xml sig2ipr ipr2go ipr_names do_ipr do_go _⟩
  · rintro rfl rfl
    unfold annotate_ipr_go
    calc rows.map (annotate_row db_xml sig2ipr ipr2go ipr_names false false)
        = rows.map id := List.map_congr_left (fun x _ =>
          annotate_row_id db_xml sig2ipr ipr2go ipr_names x)
      _ = rows := List.map_id rows

/-- A sample row for the frame-property witness. -/
def c10_row : Row := { target := some "T", ACC := some "X", score := some "4" }

/-- C10 (witness): with both flags unset the joiner is the identity. -/
theorem C10_annotate_frame_witness :
    annotate_ipr_go "DB" [] [] none false false [c10_row] = [c10_row] :=
  (C10_annotate_frame "DB" [] [] none false false [c10_row]).2.2 rfl rfl

/-- Modelled from the spec's words, for comparison with `annotate_row`: the
claimed joiner retries an empty cross-reference lookup with the
**version-stripped** accession (`strip_version`) rather than the prefix
before the first dot. -/
def annotate_row_claimed (db_xml : String)
    (sig2ipr : List ((String × String) × List String))
    (ipr2go : List (String × List String)) (ipr_names : Option (List (String × String)))
    (do_ipr do_go : Bool) (row : Row) : Row :=
  let acc := pyStrip (sval row.ACC)
  let l := (alookup sig2ipr (db_xml, acc)).getD []
  let ipr_list :=
    if l = [] ∧ acc ≠ "" ∧ strHasChar acc '.' then
      (alookup sig2ipr (db_xml, strip_version acc)).getD []
    else l
  let row1 :=
    if do_ipr then
      let r' := { row with InterPro := some (if ipr_list ≠ [] then joinWith "," ipr_list else "") }
      match ipr_names with
      | some names =>
        { r' with IPR_desc := some (joinWith "," (ipr_list.filterMap (fun i => alookup names i))) }
      | none => r'
    else row
  if do_go then
    let gos := goTermsFor ipr2go ipr_list
    { row1 with GO := some (if gos ≠ [] then joinWith "," (sortStrings gos) else "") }
  else row1

/-- Accession with two version-like suffixes. -/
def c9_row : Row := { ACC := some "A.1.2" }

/-- Cross-reference table holding the entry under the version-stripped key. -/
def c9_map : List ((String × String) × List String) := [(("DB", "A.1"), ["IPR000001"])]

/-- C9 (counterexample): the joiner retries with the prefix before the
first `'.'`, not the version-stripped accession: for `ACC = "A.1.2"` the
code looks up `"A"` and finds nothing, while the claimed behaviour looks
up `strip_version "A.1.2" = "A.1"` and finds the entry. -/
theorem C9_annotate_counterexample :
    (annotate_row "DB" c9_map [] none true false c9_row).InterPro = some "" ∧
    (annotate_row_claimed "DB" c9_map [] none true false c9_row).InterPro
      = some "IPR000001" := by
  constructor <;> decide

/-- C9 (amended): for every surviving row the cross-reference list is
looked up under `(db_xml, stripped accession)`; when that lookup is empty
and the accession is nonempty and contains a `'.'`, it is retried with the
prefix of the accession before its **first** `'.'` (not the
version-stripped form, see the counterexample); and when ontology
annotation is requested, the emitted `GO` cell is the comma-join of a
lexicographically sorted, duplicate-free list holding exactly the ontology
terms of the found cross-reference ids. -/
theorem C9_annotate_amended (db_xml : String)
    (sig2ipr : List ((String × String) × List String))
    (ipr2go : List (String × List String)) (ipr_names : Option (List (String × String)))
    (do_ipr : Bool) (row : Row) :
    ((alookup sig2ipr (db_xml, pyStrip (sval row.ACC))).getD [] ≠ [] →
      iprListFor db_xml sig2ipr (pyStrip (sval row.ACC)) =
        (alookup sig2ipr (db_xml, pyStrip (sval row.ACC))).getD []) ∧
    ((alookup sig2ipr (db_xml, pyStrip (sval row.ACC))).getD [] = [] →
      pyStrip (sval row.ACC) ≠ "" →
      strHasChar (pyStrip (sval row.ACC)) '.' = true →
      iprListFor db_xml sig2ipr (pyStrip (sval row.ACC)) =
        (alookup sig2ipr (db_xml, headPart '.' (pyStrip (sval row.ACC)))).getD []) ∧
    (∃ g : List String,
      (annotate_row db_xml sig2ipr ipr2go ipr_names do_ipr true row).GO =
        some (joinWith "," g) ∧
      List.Sorted (· < ·) g ∧
      (∀ term, term ∈ g ↔
        ∃ ipr ∈ iprListFor db_xml sig2ipr (pyStrip (sval row.ACC)),
          term ∈ (alookup ipr2go ipr).getD [])) := by
  refine ⟨?_, ?_, ?_⟩
  · intro h
    unfold iprListFor
    rw [if_neg (fun hc => h hc.1)]
  · intro h1 h2 h3
    unfold iprListFor
    rw [if_pos ⟨h1, h2, h3⟩]
  · refine ⟨sortStrings (goTermsFor ipr2go
      (iprListFor db_xml sig2ipr (pyStrip (sval row.ACC)))), ?_, ?_, ?_⟩
    · have hGO : (annotate_row db_xml sig2ipr ipr2go ipr_names do_ipr true row).GO =
          some (if goTermsFor ipr2go
              (iprListFor db_xml sig2ipr (pyStrip (sval row.ACC))) ≠ [] then
            joinWith "," (sortStrings (goTermsFor ipr2go
              (iprListFor db_xml sig2ipr (pyStrip (sval row.ACC)))))
          else "") := by
        unfold annotate_row
        cases do_ipr <;> cases ipr_names <;> simp
      rw [hGO]
      by_cases hemp : goTermsFor ipr2go
          (iprListFor db_xml sig2ipr (pyStrip (sval row.ACC))) = []
      · rw [hemp]
        simp [sortStrings, joinWith]
        rfl
      · rw [if_pos hemp]
    · have hnd : (goTermsFor ipr2go
          (iprListFor db_xml sig2ipr (pyStrip (sval row.ACC)))).Nodup := by
        unfold goTermsFor
        exact List.nodup_dedup _
      have hnds : (sortStrings (goTermsFor ipr2go
          (iprListFor db_xml sig2ipr (pyStrip (sval row.ACC))))).Nodup :=
        ((List.perm_insertionSort _ _).nodup_iff).2 hnd
      have hle : List.Sorted (· ≤ ·) (sortStrings (goTermsFor ipr2go
          (iprListFor db_xml sig2ipr (pyStrip (sval row.ACC))))) :=
        List.sorted_insertionSort _ _
      exact hle.lt_of_le hnds
    · intro term
      rw [show sortStrings (goTermsFor ipr2go
            (iprListFor db_xml sig2ipr (pyStrip (sval row.ACC)))) =
          (goTermsFor ipr2go
            (iprListFor db_xml sig2ipr (pyStrip (sval row.ACC)))).insertionSort (· ≤ ·)
          from rfl,
        List.mem_insertionSort]
      unfold goTermsFor
      rw [List.mem_dedup, List.mem_flatten]
      constructor
      · rintro ⟨l, hl, hterm⟩
        rcases List.mem_map.1 hl with ⟨ipr, hipr, rfl⟩
        exact ⟨ipr, hipr, hterm⟩
      · rintro ⟨ipr, hipr, hterm⟩
        exact ⟨(alookup ipr2go ipr).getD [], List.mem_map.2 ⟨ipr, hipr, rfl⟩, hterm⟩

/-- Cross-reference table holding only the first-dot-prefix key. -/
def c9w_map : List ((String × String) × List String) := [(("DB", "X"), ["IPR7"])]

/-- A versioned accession with a single dot. -/
def c9w_row : Row := { ACC := some "X.1" }

/-- C9 (witness): the retry lookup applied at a concrete accession. -/
theorem C9_annotate_amended_witness :
    iprListFor "DB" c9w_map (pyStrip (sval c9w_row.ACC)) =
      (alookup c9w_map ("DB", headPart '.' (pyStrip (sval c9w_row.ACC)))).getD [] :=
  (C9_annotate_amended "DB" c9w_map [] none true c9w_row).2.1 (by decide) (by decide)
    (by decide)

/-! ## Crash behaviour, pass-through and fieldname theorems -/

/-- A row whose score cell is nonempty but not a number. -/
def crash_row : Row := { target := some "P1", score := some "abc" }

/-- C5: the score-descending sorts inside `non_overlapping_per_protein`,
`non_overlapping_per_domain` and `pfam_clan_dedup` call `float` on the raw
score cell without a guard, so a row with an unparsable nonempty score
aborts the run (modelled by the `none` result) instead of being coerced to
score `0` and processed — the coercion claimed by the specification does
not happen at these three call sites. -/
theorem C5_unguarded_sort_crash :
    non_overlapping_per_protein [crash_row] (35 / 100) = none ∧
    non_overlapping_per_domain [crash_row] (1 / 4) = none ∧
    pfam_clan_dedup [crash_row] [] (1 / 2) = none := by
  refine ⟨by decide, by decide, by decide⟩

/-- C7: with both annotation flags unset and an unregistered database, the
program echoes the input file: the output bytes equal the input bytes. -/
theorem C7_pass_through (args : Args) (data : RefData) (input : String)
    (h1 : args.iprlookup = false) (h2 : args.goterms = false)
    (h3 : CUSTOM_DBS.contains (pyLower args.db) = false) :
    (mainOutput args data input).map outputBytes = some input := by
  unfold mainOutput
  rw [if_pos ⟨by simp [h1], by simp [h2], by rw [h3]; simp⟩]
  rfl

/-- C7 (witness): the pass-through at a concrete run. -/
theorem C7_pass_through_witness :
    (mainOutput ⟨"foo", false, false⟩ {} "target\tACC\nP1\ta\n").map outputBytes
      = some "target\tACC\nP1\ta\n" :=
  C7_pass_through ⟨"foo", false, false⟩ {} "target\tACC\nP1\ta\n" rfl rfl (by decide)

/-- Arguments selecting the pass-through path. -/
def c6_args : Args := { db := "foo", iprlookup := false, goterms := false }

/-- An input table carrying a `NAME` column. -/
def c6_input : String := "target\tNAME\tACC\nP1\tnm\ta1\n"

/-- C6 (counterexample): on the pass-through path (unregistered database,
no flags) the input bytes are echoed, so the `NAME` column appears in the
final output. -/
theorem C6_counterexample :
    mainOutput c6_args {} c6_input = some (Output.raw c6_input) ∧
    "NAME" ∈ outputFieldnames (Output.raw c6_input) := by
  constructor <;> decide

/-- C6 (amended): on every run that processes the table (a database with
custom post-processing, or either annotation flag set), the emitted
fieldnames never contain `NAME`; the pass-through path (unregistered
database, both flags unset) echoes the input bytes verbatim and therefore
retains any `NAME` column of the input. -/
theorem C6_no_NAME_amended (args : Args) (data : RefData) (input : String)
    (hpass : args.iprlookup = true ∨ args.goterms = true ∨
      CUSTOM_DBS.contains (pyLower args.db) = true)
    (o : Output) (h : mainOutput args data input = some o) :
    "NAME" ∉ outputFieldnames o := by
  have hcond : ¬ (¬ (args.iprlookup = true) ∧ ¬ (args.goterms = true) ∧
      ¬ (CUSTOM_DBS.contains (pyLower args.db) = true)) := by
    rintro ⟨ha, hb, hc⟩
    rcases hpass with hp | hp | hp
    · exact ha hp
    · exact hb hp
    · exact hc hp
  unfold mainOutput at h
  rw [if_neg hcond] at h
  cases hp : parseTable input with
  | none =>
    rw [hp] at h
    cases h
  | some pr =>
    obtain ⟨fns0, rows0⟩ := pr
    rw [hp] at h
    simp only [Option.map_eq_some'] at h
    obtain ⟨rs, hrs, ho⟩ := h
    rw [← ho]
    show "NAME" ∉ computeFieldnames fns0 args.iprlookup args.goterms
    unfold computeFieldnames
    intro hmem
    have hm := List.mem_filter.1 hmem
    simp at hm

/-- A custom-database run for the amended no-`NAME` statement. -/
def c6w_args : Args := { db := "hamap", iprlookup := false, goterms := false }

/-- C6 (witness): the fieldnames actually emitted by a hamap run on the
sample input do not contain `NAME`. -/
theorem C6_no_NAME_amended_witness :
    "NAME" ∉ outputFieldnames (Output.table ["target", "ACC"]
      [{ target := some "P1", NAME := some "nm", ACC := some "a1" }]) :=
  C6_no_NAME_amended c6w_args {} c6_input (Or.inr (Or.inr (by decide)))
    (Output.table ["target", "ACC"]
      [{ target := some "P1", NAME := some "nm", ACC := some "a1" }]) (by decide)

/-! ## Output-membership lemmas for the overlap pipelines -/

theorem nohStep_subset (thr : ℚ) (acc : List Row) (row : Row) :
    ∀ {x}, x ∈ nohStep thr acc row → x ∈ acc ++ [row] := by
  intro x h
  unfold nohStep at h
  cases hc : coordsOf row with
  | none =>
    rw [hc] at h
    exact h
  | some p =>
    obtain ⟨s, e⟩ := p
    rw [hc] at h
    by_cases he : e ≤ s
    · simp only [if_pos he] at h
      exact h
    · simp only [if_neg he] at h
      by_cases ha : acc.any (tooMuchOverlap thr s e) = true
      · simp only [if_pos ha] at h
        exact List.mem_append_left _ h
      · simp only [if_neg ha] at h
        exact h

theorem noh_go_subset (thr : ℚ) :
    ∀ (l acc : List Row) {x : Row}, x ∈ noh_go thr acc l → x ∈ acc ++ l := by
  intro l
  induction l with
  | nil =>
    intro acc x h
    simpa using h
  | cons r rest ih =>
    intro acc x h
    have h2 := ih (nohStep thr acc r) h
    rcases List.mem_append.1 h2 with h2 | h2
    · have h3 := nohStep_subset thr acc r h2
      rcases List.mem_append.1 h3 with h3 | h3
      · exact List.mem_append_left _ h3
      · rw [List.mem_singleton.1 h3]
        simp
    · simp [h2]

theorem non_overlapping_hits_subset {rows : List Row} {thr : ℚ} {x : Row}
    (h : x ∈ non_overlapping_hits rows thr) : x ∈ rows := by
  have h2 := noh_go_subset thr rows [] h
  simpa using h2

theorem mapM_decorate_snd {κ : Type} {f : Row → Option κ} :
    ∀ (l : List Row) (ps : List (κ × Row)),
      l.mapM (fun r => (f r).map (fun q => (q, r))) = some ps →
      ps.map (fun p => p.2) = l := by
  intro l
  induction l with
  | nil =>
    intro ps h
    simp only [List.mapM_nil, pure, Option.some.injEq] at h
    rw [← h]
    rfl
  | cons r rest ih =>
    intro ps h
    rw [List.mapM_cons] at h
    cases hf : f r with
    | none =>
      rw [hf] at h
      simp at h
    | some q =>
      rw [hf] at h
      cases hm : rest.mapM (fun r => (f r).map (fun q => (q, r))) with
      | none =>
        rw [hm] at h
        simp at h
      | some ps' =>
        rw [hm] at h
        simp only [Option.map_some', Option.bind_eq_bind, Option.some_bind, pure,
          Option.some.injEq] at h
        rw [← h]
        simp [ih ps' hm]

theorem sortByScoreDesc_mem {l l' : List Row} (h : sortByScoreDesc l = some l') :
    ∀ {x}, x ∈ l' ↔ x ∈ l := by
  intro x
  unfold sortByScoreDesc at h
  cases hm : l.mapM (fun r => (pyFloatRaise r.score).map (fun q => (q, r))) with
  | none =>
    rw [hm] at h
    cases h
  | some ps =>
    rw [hm] at h
    simp only [Option.map_some', Option.some.injEq] at h
    rw [← h]
    have hperm : List.Perm ((ps.insertionSort byScoreDesc).map (fun p => p.2))
        (ps.map (fun p => p.2)) := (List.perm_insertionSort _ _).map _
    rw [hperm.mem_iff, mapM_decorate_snd l ps hm]

theorem sortByTargetScore_mem {l l' : List Row} (h : sortByTargetScore l = some l') :
    ∀ {x}, x ∈ l' ↔ x ∈ l := by
  intro x
  unfold sortByTargetScore at h
  cases hm : l.mapM (fun r => (pyFloatRaise r.score).map (fun q => ((tgt r, q), r))) with
  | none =>
    rw [hm] at h
    cases h
  | some ps =>
    rw [hm] at h
    simp only [Option.map_some', Option.some.injEq] at h
    rw [← h]
    have hperm : List.Perm ((ps.insertionSort byTargetScore).map (fun p => p.2))
        (ps.map (fun p => p.2)) := (List.perm_insertionSort _ _).map _
    have hfun : (fun r : Row => (pyFloatRaise r.score).map (fun q => ((tgt r, q), r))) =
        (fun r : Row =>
          ((fun x : Row => (pyFloatRaise x.score).map (fun q => (tgt x, q))) r).map
            (fun q => (q, r))) := by
      funext r
      show (pyFloatRaise r.score).map (fun q => ((tgt r, q), r)) =
        ((pyFloatRaise r.score).map (fun q => (tgt r, q))).map (fun q => (q, r))
      cases pyFloatRaise r.score <;> rfl
    rw [hfun] at hm
    have hsnd := @mapM_decorate_snd (String × ℚ)
      (fun x : Row => (pyFloatRaise x.score).map (fun q => (tgt x, q))) l ps hm
    rw [hperm.mem_iff, hsnd]

theorem noh_foldlM_mem {κ : Type} (thr : ℚ) :
    ∀ (groups : List (κ × List Row)) (acc res : List Row),
      groups.foldlM (fun acc p => do
        let sorted ← sortByScoreDesc p.2
        pure (acc ++ non_overlapping_hits sorted thr)) acc = some res →
      ∀ x ∈ res, x ∈ acc ∨ ∃ p ∈ groups, x ∈ p.2 := by
  intro groups
  induction groups with
  | nil =>
    intro acc res h x hx
    simp only [List.foldlM_nil, pure, Option.some.injEq] at h
    rw [← h] at hx
    exact Or.inl hx
  | cons g rest ih =>
    intro acc res h x hx
    rw [List.foldlM_cons] at h
    cases hs : sortByScoreDesc g.2 with
    | none =>
      simp only [hs] at h
      simp at h
    | some sorted =>
      simp only [hs, Option.map_some', Option.bind_eq_bind, Option.some_bind,
        pure] at h
      have h2 := ih (acc ++ non_overlapping_hits sorted thr) res h x hx
      rcases h2 with h2 | ⟨p, hp, hxp⟩
      · rcases List.mem_append.1 h2 with h2 | h2
        · exact Or.inl h2
        · have h3 := (sortByScoreDesc_mem hs).1 (non_overlapping_hits_subset h2)
          exact Or.inr ⟨g, List.mem_cons_self _ _, h3⟩
      · exact Or.inr ⟨p, List.mem_cons_of_mem _ hp, hxp⟩

theorem non_overlapping_per_protein_mem {rows out : List Row} {thr : ℚ}
    (h : non_overlapping_per_protein rows thr = some out) :
    ∀ x ∈ out, x ∈ rows := by
  intro x hx
  unfold non_overlapping_per_protein at h
  dsimp only [] at h
  cases hf : (groupBy tgt rows).foldlM (fun acc p => do
      let sorted ← sortByScoreDesc p.2
      pure (acc ++ non_overlapping_hits sorted thr)) [] with
  | none =>
    rw [hf] at h
    simp at h
  | some res =>
    rw [hf] at h
    simp only [Option.bind_eq_bind, Option.some_bind] at h
    have hx2 := (sortByTargetScore_mem h).1 hx
    rcases noh_foldlM_mem thr (groupBy tgt rows) [] res hf x hx2 with h2 | ⟨p, hp, hxp⟩
    · cases h2
    · exact (mem_of_mem_groupBy hp hxp).1

theorem best_hit_mem {rows : List Row} {r : Row} (h : r ∈ best_hit_per_target rows) :
    r ∈ rows := by
  obtain ⟨hnd, hnone, hsome⟩ := bhInv_rows rows
  rcases List.mem_map.1 h with ⟨p, hp, rfl⟩
  have hpi := (List.perm_insertionSort byFstStr (rows.foldl bh_upd [])).mem_iff.1 hp
  have hl := mem_alookup hnd hpi
  have hb := hsome p.1 p.2.1 p.2.2 hl
  exact (List.mem_filter.1 hb.2.2.1).1

/-- Arguments of the hamap counterexample run. -/
def c8_args : Args := { db := "hamap", iprlookup := false, goterms := false }

/-- An input row with empty `NAME` and `ACC` cells. -/
def c8_input : String := "target\tNAME\tACC\nP1\t\t\n"

/-- C8 (counterexample): the hamap pipeline writes a row whose `ACC` field
is the empty string when both `ACC` and `NAME` are empty in the input. -/
theorem C8_acc_counterexample :
    (outputRows (mainOutput c8_args {} c8_input)).map (fun r => accD r) = [""] := by
  decide

/-- C8 (amended): every row surviving the cath pipeline has a non-empty
accession unconditionally (unmapped rows are dropped and the map value is
checked nonempty); every row surviving the hamap pipeline has a non-empty
accession provided each input row has a non-blank `NAME` or a non-blank
`ACC`; and the annotation joiner never changes the `ACC` field, so these
accessions reach the written output unchanged.  Without such an input
assumption a pipeline can emit rows with an empty accession. -/
theorem C8_acc_nonempty_amended :
    (∀ (cmap : List (String × String)) (rows out : List Row),
      cath_rows cmap rows = some out → ∀ r ∈ out, accD r ≠ "") ∧
    (∀ rows : List Row,
      (∀ r ∈ rows, pyStrip (nameD r) ≠ "" ∨ pyStrip (accD r) ≠ "") →
      ∀ r ∈ hamap_rows rows, accD r ≠ "") ∧
    (∀ (db_xml : String) (sig2ipr : List ((String × String) × List String))
      (ipr2go : List (String × List String))
      (ipr_names : Option (List (String × String))) (do_ipr do_go : Bool) (r : Row),
      (annotate_row db_xml sig2ipr ipr2go ipr_names do_ipr do_go r).ACC = r.ACC) := by
  refine ⟨?_, ?_, ?_⟩
  · intro cmap rows out hout r hr
    unfold cath_rows at hout
    dsimp only [] at hout
    have hmem := non_overlapping_per_protein_mem hout r hr
    rcases List.mem_filterMap.1 hmem with ⟨x, hx, hfx⟩
    by_cases hd : (alookup cmap (cath_base_name (firstTruthy x.ACC x.NAME))).getD "" = ""
    · rw [if_pos hd] at hfx
      cases hfx
    · rw [if_neg hd] at hfx
      cases hev : pyEvalueRaise x.evalue with
      | none =>
        rw [hev] at hfx
        rw [if_pos (by norm_num : (1 : ℚ) > 1 / 10000)] at hfx
        cases hfx
      | some ev =>
        rw [hev] at hfx
        cases hsc : pyFloatRaise x.score with
        | none =>
          rw [hsc] at hfx
          rw [if_pos (by norm_num : (1 : ℚ) > 1 / 10000)] at hfx
          cases hfx
        | some sc =>
          rw [hsc] at hfx
          by_cases h1 : ev > 1 / 10000
          · rw [if_pos h1] at hfx
            cases hfx
          · rw [if_neg h1] at hfx
            by_cases h2 : sc < 10
            · rw [if_pos h2] at hfx
              cases hfx
            · rw [if_neg h2] at hfx
              have hr2 := Option.some.inj hfx
              rw [← hr2]
              exact hd
  · intro rows hyp r hr
    have hmem := best_hit_mem hr
    rcases List.mem_map.1 hmem with ⟨x, hx, rfl⟩
    unfold hamap_fix
    by_cases hb : pyStrip (sval x.ACC) = ""
    · rw [if_pos hb]
      rcases hyp x hx with hn | ha
      · exact hn
      · exact absurd hb ha
    · rw [if_neg hb]
      intro hc
      exact hb (by rw [show sval x.ACC = accD x from rfl, hc]; rfl)
  · intro db_xml sig2ipr ipr2go ipr_names do_ipr do_go r
    exact (annotate_row_frame_fields db_xml sig2ipr ipr2go ipr_names do_ipr do_go r).2.2.1

/-- A row with a name but no accession, backfilled by the hamap pipeline. -/
def c8w_row : Row := { target := some "P", NAME := some "nm" }

/-- C8 (witness): the hamap conjunct applied at a concrete run. -/
theorem C8_acc_nonempty_amended_witness : accD (hamap_fix c8w_row) ≠ "" :=
  C8_acc_nonempty_amended.2.1 [c8w_row] (by decide) (hamap_fix c8w_row) (by decide)
